import Mathlib

/-!
Verification of the Lord Farming matchmaking bot's core: the matching engine
(`matchmaking.py`), its persistence effects (`database.py`), the presence and
warning subsystem (`bot.py`, `commands.py`) and formation validation
(`views.py`), shallowly embedded as pure functions over explicit snapshots of
the database state.
-/

namespace LordFarming

/-- Teams A and B, the two rosters of a session (`matchmaking.py` iterates
`['A', 'B']`). -/
inductive Team where
  | A : Team
  | B : Team
deriving DecidableEq, Repr

/-- A queue row (table `queue` in `database.py`): player id, chosen role string,
optional character, and the enqueue timestamp `joined_at` (modelled as a Nat;
the stored ISO timestamps compare lexicographically exactly as their time
values do). -/
structure Player where
  discord_id : Nat
  role : String
  character : Option String
  joined_at : Nat
deriving DecidableEq, Repr

/-- An assignment row (table `assignments`): player id, role and optional
character. The team is given by which of the two per-team lists the row lives
in, mirroring `Database.get_assignments`, which groups rows by team ordered by
`assigned_at`. -/
structure AssignRow where
  discord_id : Nat
  role : String
  character : Option String
deriving DecidableEq, Repr

/-- The two per-team assignment lists returned by `Database.get_assignments`. -/
structure Assignments where
  a : List AssignRow
  b : List AssignRow
deriving DecidableEq, Repr

def Assignments.get (A : Assignments) : Team → List AssignRow
  | Team.A => A.a
  | Team.B => A.b

/-- The `{'support': _, 'tank': _, 'dps': _}` dictionaries used for formation
requirements and for `team_counts` in `find_matches`. -/
structure RoleCounts where
  support : Nat
  tank : Nat
  dps : Nat
deriving DecidableEq, Repr

/-- Dictionary lookup `d.get(role, 0)` on a fixed-key role dictionary. -/
def RoleCounts.get (rc : RoleCounts) (r : String) : Nat :=
  if r = "support" then rc.support
  else if r = "tank" then rc.tank
  else if r = "dps" then rc.dps
  else 0

/-- `if role in team_counts[team]: team_counts[team][role] += 1`
(matchmaking.py lines 76-77): roles outside the three keys are ignored. -/
def RoleCounts.incr (rc : RoleCounts) (r : String) : RoleCounts :=
  if r = "support" then { rc with support := rc.support + 1 }
  else if r = "tank" then { rc with tank := rc.tank + 1 }
  else if r = "dps" then { rc with dps := rc.dps + 1 }
  else rc

/-- The dictionary returned by `Database.get_formations`: each team key is
present only when a `formation_requirements` row exists for it. -/
structure Formations where
  a : Option RoleCounts
  b : Option RoleCounts
deriving DecidableEq, Repr

/-- `formations.get(team, {})` followed by `formation.get(role, 0)`: a missing
team contributes 0 for every role. -/
def Formations.get (F : Formations) : Team → RoleCounts
  | Team.A => F.a.getD ⟨0, 0, 0⟩
  | Team.B => F.b.getD ⟨0, 0, 0⟩

/-- `if not formations` (matchmaking.py line 37): an empty dictionary is falsy. -/
def Formations.isEmpty (F : Formations) : Bool :=
  F.a.isNone && F.b.isNone

/-- Per-team mutable state of one `find_matches` pass: `team_counts[team]` and
`team_characters[team]`. The character set is modelled as a list that is only
ever used through membership. -/
structure TeamState where
  counts : RoleCounts
  chars : List String
deriving DecidableEq, Repr

/-- Lines 71-80 of `matchmaking.py`: fold the existing assignment rows of one
team into role counts and the collection of taken non-null characters. -/
def initTeamState (l : List AssignRow) : TeamState :=
  { counts := l.foldl (fun rc x => rc.incr x.role) ⟨0, 0, 0⟩
    chars := l.filterMap (fun x => x.character) }

/-- One accepted match produced by `find_matches`
(`{'team': team, 'player': player, 'role': role}`). -/
structure MatchEntry where
  team : Team
  player : Player
  role : String
deriving DecidableEq, Repr

/-- The full mutable state of one `find_matches` pass. `remaining` stands for
`queue_by_role`: that dictionary is exactly the partition of the
still-unassigned sorted queue by role (`queue_by_role[r]` equals
`remaining.filter (role = r)`), and removing an assigned player's id from every
per-role list (lines 115-116) is the same as removing it from `remaining`.
`conflicts` collects the `(player, character)` pairs passed to
`notify_character_conflict`. -/
structure MatchState where
  tA : TeamState
  tB : TeamState
  remaining : List Player
  matched : List MatchEntry
  conflicts : List (Nat × String)
deriving DecidableEq, Repr

def MatchState.team (s : MatchState) : Team → TeamState
  | Team.A => s.tA
  | Team.B => s.tB

def MatchState.setTeam (s : MatchState) : Team → TeamState → MatchState
  | Team.A, ts => { s with tA := ts }
  | Team.B, ts => { s with tB := ts }

/-- The sort on line 83, `sorted(queue, key=lambda p: p.get('joined_at', ''))`:
a stable sort by enqueue timestamp; `List.insertionSort` is likewise stable. -/
def byJoined (p q : Player) : Prop := p.joined_at ≤ q.joined_at

instance : DecidableRel byJoined :=
  fun p q => inferInstanceAs (Decidable (p.joined_at ≤ q.joined_at))

instance : IsTotal Player byJoined := ⟨fun p q => Nat.le_total p.joined_at q.joined_at⟩

instance : IsTrans Player byJoined := ⟨fun _ _ _ h1 h2 => Nat.le_trans h1 h2⟩

def sortQueue (q : List Player) : List Player := q.insertionSort byJoined

/-- Line 100: `if character and character in team_characters[team]` (a null
character never conflicts). -/
def conflictChar (p : Player) (cs : List String) : Option String :=
  match p.character with
  | some c => if c ∈ cs then some c else none
  | none => none

/-- Lines 105-118 of `find_matches` for an accepted candidate: append the
match, bump `team_counts[team][role]`, add the character to the team set, and
drop the player from every role queue. -/
def MatchState.assignPlayer (s : MatchState) (t : Team) (r : String) (p : Player) :
    MatchState :=
  let ts := s.team t
  let s1 := s.setTeam t
    { counts := ts.counts.incr r
      chars := match p.character with
        | some c => ts.chars ++ [c]
        | none => ts.chars }
  { s1 with
    matched := s1.matched ++ [{ team := t, player := p, role := r }]
    remaining := s1.remaining.filter (fun x => x.discord_id ≠ p.discord_id) }

/-- The `while assigned_count < needed and i < len(available)` loop of
`find_matches` (lines 93-119): walk the role's queue in order; a conflicting
candidate is recorded and skipped, any other candidate is assigned while slots
remain. -/
def assignLoop (t : Team) (r : String) (needed : Int) :
    List Player → Nat → MatchState → MatchState
  | [], _, s => s
  | p :: rest, assignedCount, s =>
    if (assignedCount : Int) < needed then
      match conflictChar p (s.team t).chars with
      | some c =>
        assignLoop t r needed rest assignedCount
          { s with conflicts := s.conflicts ++ [(p.discord_id, c)] }
      | none =>
        assignLoop t r needed rest (assignedCount + 1) (s.assignPlayer t r p)
    else s

/-- Lines 86-96 for one (team, role) pair: `needed = formation.get(role, 0) -
team_counts[team][role]` (an Int, possibly negative) and
`available = queue_by_role[role].copy()`. -/
def processTeamRole (F : Formations) (s : MatchState) (tr : Team × String) : MatchState :=
  let needed : Int := ((F.get tr.1).get tr.2 : Int) - ((s.team tr.1).counts.get tr.2 : Int)
  assignLoop tr.1 tr.2 needed (s.remaining.filter (fun p => p.role = tr.2)) 0 s

/-- `for team in ['A', 'B']: for role in ['support', 'tank', 'dps']`. -/
def teamRoleOrder : List (Team × String) :=
  [(Team.A, "support"), (Team.A, "tank"), (Team.A, "dps"),
   (Team.B, "support"), (Team.B, "tank"), (Team.B, "dps")]

def initState (A0 : Assignments) (queue : List Player) : MatchState :=
  { tA := initTeamState A0.a
    tB := initTeamState A0.b
    remaining := sortQueue queue
    matched := []
    conflicts := [] }

/-- `MatchmakingEngine.find_matches` as a pure function of the three database
snapshots. -/
def findMatches (F : Formations) (queue : List Player) (A0 : Assignments) : MatchState :=
  teamRoleOrder.foldl (processTeamRole F) (initState A0 queue)

/-- `Database.assign_to_team`: `INSERT OR REPLACE` on primary key (session,
player) removes any existing row for the player from either team and appends
the fresh row (which sorts last under its new `assigned_at`); the queue row
deletion issued in the same call is handled in `applyMatch`. -/
def assignToTeam (A : Assignments) (t : Team) (p : Player) (r : String) : Assignments :=
  let removed : Assignments :=
    { a := A.a.filter (fun x => x.discord_id ≠ p.discord_id)
      b := A.b.filter (fun x => x.discord_id ≠ p.discord_id) }
  match t with
  | Team.A => { removed with a := removed.a ++ [⟨p.discord_id, r, p.character⟩] }
  | Team.B => { removed with b := removed.b ++ [⟨p.discord_id, r, p.character⟩] }

/-- One iteration of the `execute_matches` loop (matchmaking.py lines 132-150)
restricted to its database effect: persist the assignment and drop the queue
row. -/
def applyMatch (st : List Player × Assignments) (m : MatchEntry) :
    List Player × Assignments :=
  (st.1.filter (fun x => x.discord_id ≠ m.player.discord_id),
   assignToTeam st.2 m.team m.player m.role)

/-- The database effect of `execute_matches` over a whole pass. -/
def executePersist (queue : List Player) (A0 : Assignments) (ms : List MatchEntry) :
    List Player × Assignments :=
  ms.foldl applyMatch (queue, A0)

/-- Lines 227-232 of `check_team_status`: `if role in team_counts[team]` — that
dictionary also contains the key `'total'`, so a (never actually produced) role
string "total" would bump the total twice; the three real roles bump their own
count and the total once. -/
def statusStep (st : RoleCounts × Nat) (x : AssignRow) : RoleCounts × Nat :=
  if x.role = "support" ∨ x.role = "tank" ∨ x.role = "dps" then
    (st.1.incr x.role, st.2 + 1)
  else if x.role = "total" then (st.1, st.2 + 2)
  else st

def statusCounts (l : List AssignRow) : RoleCounts × Nat :=
  l.foldl statusStep (⟨0, 0, 0⟩, 0)

def queueRoleCount (q : List Player) (r : String) : Nat :=
  (q.filter (fun p => p.role = r)).length

/-- `notify_missing_roles_with_queue` lines 286-315: per-role totals of
requirement, assigned (from the supplied stale team counts) and freshly
fetched queue, producing the shortfall list in the fixed role order. -/
def missingRoles (F : Formations) (cA cB : RoleCounts) (queueNow : List Player) :
    List (Nat × String) :=
  ["support", "tank", "dps"].filterMap (fun r =>
    let needed := (F.get Team.A).get r + (F.get Team.B).get r
    let available := cA.get r + cB.get r + queueRoleCount queueNow r
    if available < needed then some (needed - available, r) else none)

/-- The notice decision of one pass: either the "teams full" offer or the
shortfall list behind the "players needed" announcement. -/
structure Notices where
  teamsFull : Bool
  missing : List (Nat × String)
deriving DecidableEq, Repr

/-- `check_team_status` (lines 215-239) together with the shortfall computation
of `notify_missing_roles_with_queue`. The `A` argument is whatever assignment
snapshot `process_session` passes in, and `queueNow` is the queue re-read after
persistence. The 180s rate limit, the oldest-session guard and message
delivery are external effects outside the decision modelled here. -/
def checkTeamStatus (F : Formations) (A : Assignments) (queueNow : List Player) :
    Notices :=
  let sA := statusCounts A.a
  let sB := statusCounts A.b
  if sA.2 + sB.2 = 12 then { teamsFull := true, missing := [] }
  else { teamsFull := false, missing := missingRoles F sA.1 sB.1 queueNow }

/-- The outcome of one `process_session` run on the database snapshots. -/
structure ProcessResult where
  queue : List Player
  assignments : Assignments
  matched : List MatchEntry
  notices : Option Notices
  conflicts : List (Nat × String)
deriving DecidableEq, Repr

/-- `MatchmakingEngine.process_session` (lines 19-48) as a pure function of the
session status and the three database snapshots. Locked/ended/active status,
a missing formation or an empty queue are the early returns; otherwise the
pass runs, the accepted matches are persisted, and `check_team_status` is
evaluated on the assignment snapshot loaded BEFORE the pass (line 35) together
with the queue as it stands after persistence. -/
def process (status : String) (F : Formations) (queue : List Player) (A0 : Assignments) :
    ProcessResult :=
  if status = "locked" ∨ status = "ended" ∨ status = "active" then
    { queue := queue, assignments := A0, matched := [], notices := none, conflicts := [] }
  else if F.isEmpty ∨ queue = [] then
    { queue := queue, assignments := A0, matched := [], notices := none, conflicts := [] }
  else
    let s := findMatches F queue A0
    let qa := executePersist queue A0 s.matched
    { queue := qa.1, assignments := qa.2, matched := s.matched
      notices := some (checkTeamStatus F A0 qa.1), conflicts := s.conflicts }

/-- Outcome of the external calls attempted by `move_player_to_team_vc` for one
player: success, a `discord.errors.HTTPException`, or any other exception. -/
inductive MoveOutcome where
  | ok : MoveOutcome
  | httpError : MoveOutcome
  | otherError : MoveOutcome
deriving DecidableEq, Repr

/-- `move_player_to_team_vc` (matchmaking.py lines 154-191) restricted to its
assignment-table effect, driven by an oracle for the outcome of the external
move/notify calls: an `HTTPException` triggers `unassign_from_team` (lines
185-189); any other failure is only logged (lines 190-191). -/
def movePlayerEffect (A : Assignments) (pid : Nat) (outcome : MoveOutcome) : Assignments :=
  match outcome with
  | MoveOutcome.httpError =>
    { a := A.a.filter (fun x => x.discord_id ≠ pid)
      b := A.b.filter (fun x => x.discord_id ≠ pid) }
  | _ => A

/-- The `execute_matches` loop (lines 132-150) with explicit move outcomes:
each match is first persisted via `assign_to_team`, then the voice move is
attempted; all exceptions are caught inside `move_player_to_team_vc` and
`send_assignment_dm` swallows its own send failures, so the loop always
continues to the next match. -/
def executeMatchesWith (oracle : Nat → MoveOutcome) (queue : List Player)
    (A0 : Assignments) (ms : List MatchEntry) : List Player × Assignments :=
  ms.foldl (fun st m =>
    let st1 := applyMatch st m
    (st1.1, movePlayerEffect st1.2 m.player.discord_id (oracle m.player.discord_id)))
    (queue, A0)

/-- A warn row (table `warns`) for one player: session, source, reason. -/
structure WarnRow where
  session : String
  source : String
  reason : String
deriving DecidableEq, Repr

/-- The session fields the presence subsystem reads. -/
structure Session where
  session_id : String
  status : String
  voice_channel_id : Nat
deriving DecidableEq, Repr

/-- The channel-id constants of `config.py` (placeholders in the repository,
distinct ids in any deployment). -/
structure Config where
  joinToHost : Nat
  supportVC : Nat
  tankVC : Nat
  dpsVC : Nat
  flexVC : Nat
deriving DecidableEq, Repr

/-- `config.ROLE_VCS.values()`. -/
def Config.roleVCs (cfg : Config) : List Nat :=
  [cfg.supportVC, cfg.tankVC, cfg.dpsVC, cfg.flexVC]

/-- `config.GRACE_PERIOD_MINUTES` (time modelled in minutes). -/
def GRACE_PERIOD_MINUTES : Nat := 3

/-- `config.WARN_THRESHOLD`. -/
def WARN_THRESHOLD : Nat := 3

/-- One player's presence-relevant database state: the fields of their
`voice_state` row, their warn rows, and their assignment rows keyed by
session id (at most one per session under the table's primary key). -/
structure PresenceSt where
  currentChannel : Option Nat
  vsSession : Option String
  vsTeam : Option String
  graceUntil : Option Nat
  warns : List WarnRow
  assigns : List (String × AssignRow)
deriving DecidableEq, Repr

/-- `Database.get_session_warns`: `COUNT(*)` of warn rows for (session, player). -/
def sessionWarns (st : PresenceSt) (sid : String) : Nat :=
  (st.warns.filter (fun w => w.session = sid)).length

/-- `Database.unassign_from_team` for this player: delete the (session, player)
assignment rows. -/
def unassignRows (l : List (String × AssignRow)) (sid : String) :
    List (String × AssignRow) :=
  l.filter (fun x => x.1 ≠ sid)

/-- `Database.update_voice_state(discord_id, channel, session, team)`: the
`INSERT OR REPLACE` names only the channel/session/team/last-seen columns, so
the replaced row's `grace_until` column falls back to its default NULL — every
such voice-state write wipes any pending grace deadline. -/
def updateVoiceState (st : PresenceSt) (channel : Option Nat) (sid : Option String)
    (team : Option String) : PresenceSt :=
  { st with currentChannel := channel, vsSession := sid, vsTeam := team,
            graceUntil := none }

/-- `start_grace_period` (bot.py 593-625) restricted to its database effect:
`set_grace_period` persists the deadline `now + GRACE_PERIOD_MINUTES`; the
player notification and the scheduled expiry check are external. -/
def startGracePeriod (now : Nat) (st : PresenceSt) : PresenceSt :=
  { st with graceUntil := some (now + GRACE_PERIOD_MINUTES) }

/-- `handle_player_leave` (bot.py 556-571): only a player whose voice-state row
is bound to the current active session and who left that session's bound
channel while the status is `active` starts a grace period; everything else
(nickname reset, global-queue removal) does not touch this state. -/
def handlePlayerLeave (session : Session) (now : Nat) (leftChannel : Nat)
    (st : PresenceSt) : PresenceSt :=
  if st.vsSession ≠ some session.session_id then st
  else if leftChannel = session.voice_channel_id ∧ session.status = "active" then
    startGracePeriod now st
  else st

/-- `handle_player_move` (bot.py 573-591): `update_voice_state` is called with
only the new channel, which nulls the session/team binding AND the grace
deadline; the re-read voice state therefore never has `grace_until` set, so
the explicit clear branch (lines 578-591) is dead code — kept verbatim here. -/
def handlePlayerMove (session : Session) (newChannel : Nat) (st : PresenceSt) :
    PresenceSt :=
  let st1 := updateVoiceState st (some newChannel) none none
  if st1.graceUntil.isSome ∧ session.voice_channel_id = newChannel then
    { st1 with graceUntil := none }
  else st1

/-- `handle_voice_state_change` (bot.py 191-200). The host branch
(`handle_host_join`) and the role-queue branch (`handle_player_queue_join`)
only send DMs, create sessions, write queue rows or change nicknames — none of
which touches the player's voice_state/warns/assignments modelled here — so
they are the identity on this state. Note there is NO branch for a transition
from no channel into a channel other than the host/role-queue channels: a
fresh connect straight into the session's bound channel falls through with no
effect. -/
def handleVoiceStateChange (cfg : Config) (session : Session) (now : Nat)
    (before after : Option Nat) (st : PresenceSt) : PresenceSt :=
  match after with
  | some a =>
    if a = cfg.joinToHost then st
    else if a ∈ cfg.roleVCs then st
    else
      match before with
      | some b => if b ≠ a then handlePlayerMove session a st else st
      | none => st
  | none =>
    match before with
    | some b => handlePlayerLeave session now b st
    | none => st

/-- `check_grace_period_expired` (bot.py 635-675): an already-cleared deadline
is a no-op; otherwise append one warn with source `auto`, clear the deadline,
recount the session warns, and past the threshold unassign the player and wipe
the voice-state binding via `update_voice_state(id, None, None, None)`. -/
def checkGraceExpired (sid : String) (st : PresenceSt) : PresenceSt :=
  match st.graceUntil with
  | none => st
  | some _ =>
    let st1 : PresenceSt :=
      { st with warns := st.warns ++ [⟨sid, "auto", "Left team voice channel"⟩]
                graceUntil := none }
    if WARN_THRESHOLD ≤ sessionWarns st1 sid then
      updateVoiceState { st1 with assigns := unassignRows st1.assigns sid } none none none
    else st1

/-- The host `warn` slash command (commands.py 197-272) restricted to its
database effect: append a warn with source `manual` and apply the same
threshold kick as the automatic path. -/
def warnCommand (sid : String) (reason : String) (st : PresenceSt) : PresenceSt :=
  let st1 : PresenceSt := { st with warns := st.warns ++ [⟨sid, "manual", reason⟩] }
  if WARN_THRESHOLD ≤ sessionWarns st1 sid then
    updateVoiceState { st1 with assigns := unassignRows st1.assigns sid } none none none
  else st1

/-- A formation row store for one session: at most one row per team
(`formation_requirements` primary key (session, team)); `set_formation` is an
`INSERT OR REPLACE`. -/
def setFormationRow (rows : List (Team × RoleCounts)) (t : Team) (rc : RoleCounts) :
    List (Team × RoleCounts) :=
  rows.filter (fun x => x.1 ≠ t) ++ [(t, rc)]

/-- `TeamFormationModal.on_submit` (views.py 158-235) on the already parsed
integer counts: a negative count or a sum other than 6 raises `ValueError`
before `set_formation` is reached, the error embed is shown and no row is
written (success flag false); otherwise the row is persisted. -/
def submitFormation (rows : List (Team × RoleCounts)) (t : Team)
    (support tank dps : Int) : List (Team × RoleCounts) × Bool :=
  if support < 0 ∨ tank < 0 ∨ dps < 0 then (rows, false)
  else if support + tank + dps ≠ 6 then (rows, false)
  else (setFormationRow rows t ⟨support.toNat, tank.toNat, dps.toNat⟩, true)

/-- `Database.add_to_queue`: `INSERT OR REPLACE` on primary key (session,
player) drops any previous row for the player and inserts a fresh one whose
`joined_at` defaults to the current timestamp. -/
def addToQueue (q : List Player) (pid : Nat) (r : String) (c : Option String)
    (now : Nat) : List Player :=
  q.filter (fun x => x.discord_id ≠ pid) ++ [⟨pid, r, c, now⟩]

/-! ### Supporting lemmas -/

theorem orderedInsert_append_last (x a : Player) (s : List Player)
    (h : byJoined x a) :
    List.orderedInsert byJoined x (s ++ [a]) = List.orderedInsert byJoined x s ++ [a] := by
  induction s with
  | nil => simp [List.orderedInsert, if_pos h]
  | cons b s ih =>
    simp only [List.cons_append, List.orderedInsert, List.append_eq]
    by_cases hxb : byJoined x b
    · rw [if_pos hxb, if_pos hxb]
      simp
    · rw [if_neg hxb, if_neg hxb, ih]
      simp

theorem sortQueue_append_last (q : List Player) (a : Player)
    (h : ∀ x ∈ q, byJoined x a) :
    sortQueue (q ++ [a]) = sortQueue q ++ [a] := by
  induction q with
  | nil => rfl
  | cons x q ih =>
    simp only [sortQueue, List.cons_append, List.insertionSort, List.append_eq] at ih ⊢
    rw [ih (fun y hy => h y (List.mem_cons_of_mem x hy)),
        orderedInsert_append_last x a _ (h x (List.mem_cons_self x q))]

/-! ### C9 — formation validation -/

/-- C9: a formation submission with a negative count or counts not summing to 6
is rejected before persistence — `set_formation` is not called, the stored rows
are unchanged and the error is surfaced (flag `false`); a submission with
non-negative counts summing to exactly 6 is persisted. -/
theorem c9_formation_validation (rows : List (Team × RoleCounts)) (t : Team)
    (s tk d : Int) :
    ((s < 0 ∨ tk < 0 ∨ d < 0 ∨ s + tk + d ≠ 6) →
      submitFormation rows t s tk d = (rows, false)) ∧
    ((0 ≤ s ∧ 0 ≤ tk ∧ 0 ≤ d ∧ s + tk + d = 6) →
      submitFormation rows t s tk d =
        (setFormationRow rows t ⟨s.toNat, tk.toNat, d.toNat⟩, true)) := by
  constructor
  · intro hbad
    unfold submitFormation
    rcases hbad with h | h | h | h
    · rw [if_pos (Or.inl h)]
    · rw [if_pos (Or.inr (Or.inl h))]
    · rw [if_pos (Or.inr (Or.inr h))]
    · by_cases hneg : s < 0 ∨ tk < 0 ∨ d < 0
      · rw [if_pos hneg]
      · rw [if_neg hneg, if_pos h]
  · rintro ⟨hs, ht, hd, hsum⟩
    unfold submitFormation
    have h1 : ¬(s < 0 ∨ tk < 0 ∨ d < 0) := by
      push_neg
      exact ⟨hs, ht, hd⟩
    rw [if_neg h1, if_neg (not_not_intro hsum)]

theorem c9_formation_validation_witness :
    (((-1 : Int) < 0 ∨ (3 : Int) < 0 ∨ (4 : Int) < 0 ∨ (-1 : Int) + 3 + 4 ≠ 6) ∧
      submitFormation [] Team.A (-1) 3 4 = ([], false)) ∧
    (((0 : Int) ≤ 2 ∧ (0 : Int) ≤ 2 ∧ (0 : Int) ≤ 2 ∧ (2 : Int) + 2 + 2 = 6) ∧
      submitFormation [] Team.A 2 2 2 =
        (setFormationRow [] Team.A ⟨2, 2, 2⟩, true)) :=
  ⟨⟨by decide, (c9_formation_validation [] Team.A (-1) 3 4).1 (by decide)⟩,
   ⟨by decide, (c9_formation_validation [] Team.A 2 2 2).2 (by decide)⟩⟩

/-! ### C10 — queue replacement semantics -/

/-- C10: `add_to_queue` keeps at most one queue row per player — re-queuing
replaces the existing row (role and character overwritten, timestamp reset to
now), leaves all other rows untouched, preserves per-player uniqueness, and
with a fresh timestamp the re-queued player sorts to the back of the FIFO
order used by matching. -/
theorem c10_queue_replacement (q : List Player) (pid : Nat) (r : String)
    (c : Option String) (now : Nat) :
    ((addToQueue q pid r c now).filter (fun x => x.discord_id = pid) =
      [⟨pid, r, c, now⟩]) ∧
    ((addToQueue q pid r c now).filter (fun x => x.discord_id ≠ pid) =
      q.filter (fun x => x.discord_id ≠ pid)) ∧
    (((q.map (fun x => x.discord_id)).Nodup →
      ((addToQueue q pid r c now).map (fun x => x.discord_id)).Nodup)) ∧
    ((∀ x ∈ q, x.joined_at ≤ now) →
      sortQueue (addToQueue q pid r c now) =
        sortQueue (q.filter (fun x => x.discord_id ≠ pid)) ++ [⟨pid, r, c, now⟩]) := by
  refine ⟨?_, ?_, ?_, ?_⟩
  · unfold addToQueue
    rw [List.filter_append, List.filter_filter]
    simp
  · unfold addToQueue
    rw [List.filter_append, List.filter_filter]
    simp
  · intro hq
    unfold addToQueue
    rw [List.map_append, List.nodup_append]
    refine ⟨List.Nodup.sublist ((List.filter_sublist q).map _) hq, by simp, ?_⟩
    intro x hx
    simp only [List.mem_map, List.mem_filter] at hx
    obtain ⟨y, ⟨_, hy⟩, rfl⟩ := hx
    simp only [decide_eq_true_eq] at hy
    simp [hy]
  · intro h
    unfold addToQueue
    exact sortQueue_append_last _ _ (fun x hx =>
      h x (List.mem_of_mem_filter hx))

theorem c10_queue_replacement_witness :
    (([⟨7, "tank", some "Hulk", 1⟩] : List Player).map
        (fun x => x.discord_id)).Nodup ∧
    (∀ x ∈ ([⟨7, "tank", some "Hulk", 1⟩] : List Player), x.joined_at ≤ 5) ∧
    ((addToQueue [⟨7, "tank", some "Hulk", 1⟩] 7 "dps" (some "Storm") 5).map
        (fun x => x.discord_id)).Nodup ∧
    sortQueue (addToQueue [⟨7, "tank", some "Hulk", 1⟩] 7 "dps" (some "Storm") 5) =
      sortQueue (([⟨7, "tank", some "Hulk", 1⟩] : List Player).filter
        (fun x => x.discord_id ≠ 7)) ++ [⟨7, "dps", some "Storm", 5⟩] :=
  ⟨by decide, by decide,
   (c10_queue_replacement [⟨7, "tank", some "Hulk", 1⟩] 7 "dps" (some "Storm") 5).2.2.1
     (by decide),
   (c10_queue_replacement [⟨7, "tank", some "Hulk", 1⟩] 7 "dps" (some "Storm") 5).2.2.2
     (by decide)⟩

/-! ### C7 — warn threshold kick -/

/-- C7: whether the warn is automatic (grace expiry) or manual (host command),
a warn event that brings the player's session-scoped count to exactly
`WARN_THRESHOLD` removes their assignment rows for the session and clears
their voice-state session/team binding, while a count of `WARN_THRESHOLD - 1`
leaves the assignment rows intact. -/
theorem c7_warn_threshold_kick (st : PresenceSt) (sid : String) (reason : String)
    (d : Nat) (hd : st.graceUntil = some d) :
    ((sessionWarns (checkGraceExpired sid st) sid = WARN_THRESHOLD →
      (checkGraceExpired sid st).assigns.filter (fun x => x.1 = sid) = [] ∧
      (checkGraceExpired sid st).vsSession = none ∧
      (checkGraceExpired sid st).vsTeam = none) ∧
     (sessionWarns (checkGraceExpired sid st) sid = WARN_THRESHOLD - 1 →
      (checkGraceExpired sid st).assigns = st.assigns)) ∧
    ((sessionWarns (warnCommand sid reason st) sid = WARN_THRESHOLD →
      (warnCommand sid reason st).assigns.filter (fun x => x.1 = sid) = [] ∧
      (warnCommand sid reason st).vsSession = none ∧
      (warnCommand sid reason st).vsTeam = none) ∧
     (sessionWarns (warnCommand sid reason st) sid = WARN_THRESHOLD - 1 →
      (warnCommand sid reason st).assigns = st.assigns)) := by
  have haux : ∀ src rsn,
      (sessionWarns { st with
          warns := st.warns ++ [⟨sid, src, rsn⟩], graceUntil := none } sid =
        sessionWarns st sid + 1) := by
    intro src rsn
    simp [sessionWarns, List.filter_append]
  constructor
  · unfold checkGraceExpired
    rw [hd]
    by_cases hth : WARN_THRESHOLD ≤ sessionWarns
        { st with warns := st.warns ++ [⟨sid, "auto", "Left team voice channel"⟩],
                  graceUntil := none } sid
    · rw [if_pos hth]
      constructor
      · intro _
        refine ⟨?_, rfl, rfl⟩
        simp [updateVoiceState, unassignRows, List.filter_filter]
      · intro hcount
        exfalso
        simp only [updateVoiceState, sessionWarns] at hcount
        simp only [sessionWarns] at hth
        rw [hcount] at hth
        exact absurd hth (by decide)
    · rw [if_neg hth]
      constructor
      · intro hcount
        exfalso
        simp only [sessionWarns] at hcount hth
        rw [hcount] at hth
        exact hth (Nat.le_refl _)
      · intro _
        rfl
  · unfold warnCommand
    by_cases hth : WARN_THRESHOLD ≤ sessionWarns
        { st with warns := st.warns ++ [⟨sid, "manual", reason⟩] } sid
    · rw [if_pos hth]
      constructor
      · intro _
        refine ⟨?_, rfl, rfl⟩
        simp [updateVoiceState, unassignRows, List.filter_filter]
      · intro hcount
        exfalso
        simp only [updateVoiceState, sessionWarns] at hcount
        simp only [sessionWarns] at hth
        rw [hcount] at hth
        exact absurd hth (by decide)
    · rw [if_neg hth]
      constructor
      · intro hcount
        exfalso
        simp only [sessionWarns] at hcount hth
        rw [hcount] at hth
        exact hth (Nat.le_refl _)
      · intro _
        rfl

/-- A concrete presence state for the C7 witness: a pending grace deadline and
two prior warns in session `s`, so one more warn reaches the threshold. -/
def c7state : PresenceSt :=
  ⟨some 100, some "s", some "A", some 5,
   [⟨"s", "auto", "a"⟩, ⟨"s", "auto", "b"⟩], [("s", ⟨7, "support", none⟩)]⟩

theorem c7_warn_threshold_kick_witness :
    c7state.graceUntil = some 5 ∧
    (((sessionWarns (checkGraceExpired "s" c7state) "s" = WARN_THRESHOLD →
        (checkGraceExpired "s" c7state).assigns.filter (fun x => x.1 = "s") = [] ∧
        (checkGraceExpired "s" c7state).vsSession = none ∧
        (checkGraceExpired "s" c7state).vsTeam = none) ∧
      (sessionWarns (checkGraceExpired "s" c7state) "s" = WARN_THRESHOLD - 1 →
        (checkGraceExpired "s" c7state).assigns = c7state.assigns)) ∧
     ((sessionWarns (warnCommand "s" "afk" c7state) "s" = WARN_THRESHOLD →
        (warnCommand "s" "afk" c7state).assigns.filter (fun x => x.1 = "s") = [] ∧
        (warnCommand "s" "afk" c7state).vsSession = none ∧
        (warnCommand "s" "afk" c7state).vsTeam = none) ∧
      (sessionWarns (warnCommand "s" "afk" c7state) "s" = WARN_THRESHOLD - 1 →
        (warnCommand "s" "afk" c7state).assigns = c7state.assigns))) :=
  ⟨rfl, c7_warn_threshold_kick c7state "s" "afk" 5 rfl⟩

/-! ### C8 — grace period start -/

/-- C8 counterexample: with an active session bound to channel 100, a player
bound to that session who MOVES from the bound channel to an unrelated channel
50 does not get a grace deadline (the move branch wipes the voice-state row
instead); the claim says leaving by moving to another channel sets the
deadline `now + GRACE_PERIOD_MINUTES`. -/
theorem c8_counterexample :
    (handleVoiceStateChange ⟨1, 2, 3, 4, 5⟩ ⟨"s", "active", 100⟩ 10
        (some 100) (some 50)
        ⟨some 100, some "s", some "A", none, [], []⟩).graceUntil = none ∧
    (some (10 + GRACE_PERIOD_MINUTES) : Option Nat) ≠ none := by
  decide

/-- C8 amended: starting from a state with no pending deadline, a grace
deadline (of value `now + GRACE_PERIOD_MINUTES`) is set by a voice transition
exactly when the player fully disconnects (`after = none`) out of the
session's bound channel while their voice state is bound to the session and
the session status is `active`; in particular moving to another channel never
sets it, and leaving while the session is forming or locked never sets it. -/
theorem c8_grace_start_characterization (cfg : Config) (session : Session)
    (now : Nat) (before after : Option Nat) (st : PresenceSt)
    (h0 : st.graceUntil = none) :
    (handleVoiceStateChange cfg session now before after st).graceUntil =
      (if after = none ∧ before = some session.voice_channel_id ∧
          st.vsSession = some session.session_id ∧ session.status = "active"
        then some (now + GRACE_PERIOD_MINUTES) else none) := by
  rcases after with _ | a <;> rcases before with _ | b <;>
    simp only [handleVoiceStateChange, handlePlayerLeave, handlePlayerMove,
      updateVoiceState, startGracePeriod] <;>
    split_ifs <;> simp_all

theorem c8_grace_start_characterization_witness :
    (⟨some 100, some "s", some "A", none, [], []⟩ : PresenceSt).graceUntil = none ∧
    (handleVoiceStateChange ⟨1, 2, 3, 4, 5⟩ ⟨"s", "active", 100⟩ 10
        (some 100) none ⟨some 100, some "s", some "A", none, [], []⟩).graceUntil =
      (if (none : Option Nat) = none ∧ (some 100 : Option Nat) = some 100 ∧
          (some "s" : Option String) = some "s" ∧ "active" = "active"
        then some (10 + GRACE_PERIOD_MINUTES) else none) :=
  ⟨rfl, c8_grace_start_characterization ⟨1, 2, 3, 4, 5⟩ ⟨"s", "active", 100⟩ 10
    (some 100) none ⟨some 100, some "s", some "A", none, [], []⟩ rfl⟩

/-! ### C3 — grace round trip -/

/-- C3 counterexample: a player whose grace period is running reconnects from
no channel straight into the session's bound channel (channel 100). The claim
says any presence transition into the bound channel clears the deadline and no
Warn is appended, but the dispatcher has no branch for this transition: the
deadline survives and the expiry check still appends an auto Warn. -/
theorem c3_counterexample :
    (handleVoiceStateChange ⟨1, 2, 3, 4, 5⟩ ⟨"s", "active", 100⟩ 11
        none (some 100)
        ⟨none, some "s", some "A", some 13, [], []⟩).graceUntil = some 13 ∧
    (checkGraceExpired "s"
        (handleVoiceStateChange ⟨1, 2, 3, 4, 5⟩ ⟨"s", "active", 100⟩ 11
          none (some 100)
          ⟨none, some "s", some "A", some 13, [], []⟩)).warns =
      [⟨"s", "auto", "Left team voice channel"⟩] := by
  decide

/-- C3 amended: (1) a player who returns to the bound channel by MOVING from
another channel before the deadline fires ends up with the deadline cleared
and zero Warn rows from that departure (the expiry check is then a no-op);
(2) a player who returns by a fresh CONNECT into the bound channel keeps the
deadline, and the expiry then appends one Warn with source `auto`; (3) a
player who does not return gets exactly one Warn with source `auto` appended
at expiry, and the deadline is cleared. -/
theorem c3_grace_round_trip (cfg : Config) (session : Session) (now : Nat)
    (sid : String) (st : PresenceSt)
    (hhost : session.voice_channel_id ≠ cfg.joinToHost)
    (hrole : session.voice_channel_id ∉ cfg.roleVCs) :
    (∀ b, b ≠ session.voice_channel_id →
      (handleVoiceStateChange cfg session now (some b)
          (some session.voice_channel_id) st).graceUntil = none ∧
      (checkGraceExpired sid
        (handleVoiceStateChange cfg session now (some b)
          (some session.voice_channel_id) st)).warns = st.warns) ∧
    ((handleVoiceStateChange cfg session now none
        (some session.voice_channel_id) st) = st ∧
      (∀ d, st.graceUntil = some d →
        (checkGraceExpired sid st).warns =
          st.warns ++ [⟨sid, "auto", "Left team voice channel"⟩])) ∧
    (∀ d, st.graceUntil = some d →
      (checkGraceExpired sid st).warns =
        st.warns ++ [⟨sid, "auto", "Left team voice channel"⟩] ∧
      (checkGraceExpired sid st).graceUntil = none) := by
  have hexp : ∀ d, st.graceUntil = some d →
      (checkGraceExpired sid st).warns =
        st.warns ++ [⟨sid, "auto", "Left team voice channel"⟩] ∧
      (checkGraceExpired sid st).graceUntil = none := by
    intro d hd
    unfold checkGraceExpired
    rw [hd]
    dsimp only
    split_ifs with h
    · exact ⟨rfl, rfl⟩
    · exact ⟨rfl, rfl⟩
  refine ⟨?_, ⟨?_, fun d hd => (hexp d hd).1⟩, hexp⟩
  · intro b hb
    have hmove : handleVoiceStateChange cfg session now (some b)
        (some session.voice_channel_id) st =
        handlePlayerMove session session.voice_channel_id st := by
      unfold handleVoiceStateChange
      dsimp only
      rw [if_neg hhost, if_neg hrole, if_pos hb]
    rw [hmove]
    unfold handlePlayerMove updateVoiceState
    simp [checkGraceExpired]
  · unfold handleVoiceStateChange
    dsimp only
    rw [if_neg hhost, if_neg hrole]

theorem c3_grace_round_trip_witness :
    ((100 : Nat) ≠ 1 ∧ (100 : Nat) ∉ Config.roleVCs ⟨1, 2, 3, 4, 5⟩ ∧
      (50 : Nat) ≠ 100 ∧
      (⟨none, some "s", some "A", some 13, [], []⟩ : PresenceSt).graceUntil =
        some 13) ∧
    (handleVoiceStateChange ⟨1, 2, 3, 4, 5⟩ ⟨"s", "active", 100⟩ 11
        (some 50) (some 100)
        ⟨none, some "s", some "A", some 13, [], []⟩).graceUntil = none ∧
    (checkGraceExpired "s" ⟨none, some "s", some "A", some 13, [], []⟩).warns =
      [] ++ [⟨"s", "auto", "Left team voice channel"⟩] := by
  refine ⟨⟨by decide, by decide, by decide, rfl⟩, ?_, ?_⟩
  · exact ((c3_grace_round_trip ⟨1, 2, 3, 4, 5⟩ ⟨"s", "active", 100⟩ 11 "s"
      ⟨none, some "s", some "A", some 13, [], []⟩ (by decide) (by decide)).1
      50 (by decide)).1
  · exact ((c3_grace_round_trip ⟨1, 2, 3, 4, 5⟩ ⟨"s", "active", 100⟩ 11 "s"
      ⟨none, some "s", some "A", some 13, [], []⟩ (by decide) (by decide)).2.2
      13 rfl).1

/-! ### C2 — no rollback on external failure -/

theorem mem_filter_ne_id {row : AssignRow} {l : List AssignRow} {pid : Nat}
    (hrow : row ∈ l) (hne : row.discord_id ≠ pid) :
    row ∈ l.filter (fun x => x.discord_id ≠ pid) :=
  List.mem_filter.mpr ⟨hrow, by simp [hne]⟩

theorem mem_assignToTeam_of_ne {row : AssignRow} {A : Assignments} {t tm : Team}
    {p : Player} {r : String} (hrow : row ∈ A.get t)
    (hne : row.discord_id ≠ p.discord_id) :
    row ∈ (assignToTeam A tm p r).get t := by
  cases tm <;> cases t <;>
    simp only [assignToTeam, Assignments.get] <;>
    first
      | exact List.mem_append_left _ (mem_filter_ne_id hrow hne)
      | exact mem_filter_ne_id hrow hne

theorem mem_movePlayerEffect_of_ne {row : AssignRow} {A : Assignments} {t : Team}
    {pid : Nat} {o : MoveOutcome} (hrow : row ∈ A.get t)
    (hne : row.discord_id ≠ pid) :
    row ∈ (movePlayerEffect A pid o).get t := by
  cases o with
  | httpError =>
    cases t <;> simp only [movePlayerEffect, Assignments.get] <;>
      exact mem_filter_ne_id hrow hne
  | ok => exact hrow
  | otherError => exact hrow

theorem executeMatches_preserves (oracle : Nat → MoveOutcome) (ms : List MatchEntry) :
    ∀ (q : List Player) (A : Assignments) (t : Team) (row : AssignRow),
      row ∈ A.get t →
      row.discord_id ∉ ms.map (fun m => m.player.discord_id) →
      row ∈ ((executeMatchesWith oracle q A ms).2.get t) := by
  induction ms with
  | nil => intro q A t row hrow _; exact hrow
  | cons m rest ih =>
    intro q A t row hrow hid
    simp only [List.map_cons, List.mem_cons, not_or] at hid
    have h1 : row ∈ (assignToTeam A m.team m.player m.role).get t :=
      mem_assignToTeam_of_ne hrow hid.1
    have h2 : row ∈ (movePlayerEffect (assignToTeam A m.team m.player m.role)
        m.player.discord_id (oracle m.player.discord_id)).get t :=
      mem_movePlayerEffect_of_ne h1 hid.1
    exact ih _ _ t row h2 (by simpa using hid.2)

/-- C2 counterexample: `execute_matches` persists the single accepted match for
player 1, but the voice move raises `HTTPException`, whose handler calls
`unassign_from_team` — the Assignment row persisted before the move attempt is
gone afterwards, against the claim that a move failure never removes it. -/
theorem c2_counterexample :
    (executeMatchesWith (fun _ => MoveOutcome.httpError) [⟨1, "dps", none, 0⟩]
        ⟨[], []⟩ [⟨Team.B, ⟨1, "dps", none, 0⟩, "dps"⟩]).2 =
      (⟨[], []⟩ : Assignments) ∧
    (⟨1, "dps", none⟩ : AssignRow) ∉
      ((⟨[], []⟩ : Assignments) : Assignments).b := by
  decide

/-- C2 amended: a failure of the external voice-move or notification calls
never aborts the processing of the remaining matches, and an assignment
persisted by `execute_matches` survives as long as that player's own move did
not raise `HTTPException`; an `HTTPException` during the move, however, rolls
the player's Assignment row back (`unassign_from_team`, matchmaking.py
185-189). -/
theorem c2_no_rollback_except_http (oracle : Nat → MoveOutcome)
    (queue : List Player) (A0 : Assignments) (ms : List MatchEntry)
    (hnodup : (ms.map (fun m => m.player.discord_id)).Nodup) :
    ∀ m ∈ ms, oracle m.player.discord_id ≠ MoveOutcome.httpError →
      (⟨m.player.discord_id, m.role, m.player.character⟩ : AssignRow) ∈
        ((executeMatchesWith oracle queue A0 ms).2.get m.team) := by
  induction ms generalizing queue A0 with
  | nil => intro m hm; exact absurd hm (List.not_mem_nil m)
  | cons m0 rest ih =>
    intro m hm hno
    simp only [List.map_cons, List.nodup_cons] at hnodup
    rcases List.mem_cons.mp hm with rfl | hm2
    · have hrow : (⟨m.player.discord_id, m.role, m.player.character⟩ : AssignRow) ∈
          (assignToTeam A0 m.team m.player m.role).get m.team := by
        cases hmt : m.team <;>
          simp [assignToTeam, Assignments.get, hmt]
      have hrow2 : (⟨m.player.discord_id, m.role, m.player.character⟩ : AssignRow) ∈
          (movePlayerEffect (assignToTeam A0 m.team m.player m.role)
            m.player.discord_id (oracle m.player.discord_id)).get m.team := by
        cases ho : oracle m.player.discord_id with
        | httpError => exact absurd ho hno
        | ok => exact hrow
        | otherError => exact hrow
      exact executeMatches_preserves oracle rest _ _ m.team _ hrow2 hnodup.1
    · exact ih _ _ hnodup.2 m hm2 hno

theorem c2_no_rollback_except_http_witness :
    ((([⟨Team.A, ⟨1, "dps", none, 0⟩, "dps"⟩,
        ⟨Team.B, ⟨2, "tank", none, 1⟩, "tank"⟩] : List MatchEntry).map
        (fun m => m.player.discord_id)).Nodup) ∧
    (⟨2, "tank", none⟩ : AssignRow) ∈
      ((executeMatchesWith
          (fun pid => if pid = 1 then MoveOutcome.httpError else MoveOutcome.ok)
          [] ⟨[], []⟩
          [⟨Team.A, ⟨1, "dps", none, 0⟩, "dps"⟩,
           ⟨Team.B, ⟨2, "tank", none, 1⟩, "tank"⟩]).2.get Team.B) :=
  ⟨by decide,
   c2_no_rollback_except_http
     (fun pid => if pid = 1 then MoveOutcome.httpError else MoveOutcome.ok)
     [] ⟨[], []⟩
     [⟨Team.A, ⟨1, "dps", none, 0⟩, "dps"⟩, ⟨Team.B, ⟨2, "tank", none, 1⟩, "tank"⟩]
     (by decide) ⟨Team.B, ⟨2, "tank", none, 1⟩, "tank"⟩ (by decide) (by decide)⟩

/-! ### C1 — which snapshot feeds the notices -/

/-- The three role strings actually used by the bot. -/
def knownRole (r : String) : Bool := r = "support" || r = "tank" || r = "dps"

/-- Direct recount of a team's assignment rows holding a given role. -/
def countRoleRows (l : List AssignRow) (r : String) : Nat :=
  (l.filter (fun x => x.role = r)).length

/-- Spec-style recomputation of the per-role shortfall
`stillNeeded = sum(team requirement) - sum(assigned) - sum(queued)`, stated
directly over an assignment snapshot and a queue snapshot. -/
def specMissingRoles (F : Formations) (A : Assignments) (qNow : List Player) :
    List (Nat × String) :=
  ["support", "tank", "dps"].filterMap (fun r =>
    let needed := (F.get Team.A).get r + (F.get Team.B).get r
    let available := countRoleRows A.a r + countRoleRows A.b r + queueRoleCount qNow r
    if available < needed then some (needed - available, r) else none)

theorem RoleCounts.get_zero (r : String) : (⟨0, 0, 0⟩ : RoleCounts).get r = 0 := by
  unfold RoleCounts.get
  split_ifs <;> rfl

theorem RoleCounts.get_incr (rc : RoleCounts) (p r : String) :
    (rc.incr p).get r = rc.get r +
      (if r = p ∧ (p = "support" ∨ p = "tank" ∨ p = "dps") then 1 else 0) := by
  unfold RoleCounts.incr RoleCounts.get
  split_ifs <;> simp_all

theorem countRoleRows_cons (x : AssignRow) (l : List AssignRow) (r : String) :
    countRoleRows (x :: l) r = (if x.role = r then 1 else 0) + countRoleRows l r := by
  unfold countRoleRows
  rw [List.filter_cons]
  by_cases h : x.role = r
  · simp [h, Nat.add_comm]
  · simp [h]

theorem statusCounts_go (l : List AssignRow) :
    ∀ (rc : RoleCounts) (n : Nat), (∀ x ∈ l, knownRole x.role = true) →
      (List.foldl statusStep (rc, n) l).2 = n + l.length ∧
      (∀ r, (List.foldl statusStep (rc, n) l).1.get r = rc.get r + countRoleRows l r) := by
  induction l with
  | nil =>
    intro rc n _
    simp [countRoleRows]
  | cons x l ih =>
    intro rc n hk
    have hx : x.role = "support" ∨ x.role = "tank" ∨ x.role = "dps" := by
      have := hk x (List.mem_cons_self x l)
      simp only [knownRole, Bool.or_eq_true, decide_eq_true_eq] at this
      tauto
    have hstep : statusStep (rc, n) x = (rc.incr x.role, n + 1) := by
      unfold statusStep
      rw [if_pos hx]
    have ihl := ih (rc.incr x.role) (n + 1)
      (fun y hy => hk y (List.mem_cons_of_mem x hy))
    rw [List.foldl_cons, hstep]
    refine ⟨?_, ?_⟩
    · rw [ihl.1]
      simp only [List.length_cons]
      omega
    · intro r
      rw [ihl.2 r, RoleCounts.get_incr, countRoleRows_cons]
      by_cases hr : x.role = r
      · rw [if_pos ⟨hr.symm, hx⟩, if_pos hr]
        omega
      · rw [if_neg (fun hc => hr hc.1.symm), if_neg hr]
        omega

theorem missingRoles_eq_spec (F : Formations) (A0 : Assignments)
    (qNow : List Player)
    (hA : ∀ r, (statusCounts A0.a).1.get r = countRoleRows A0.a r)
    (hB : ∀ r, (statusCounts A0.b).1.get r = countRoleRows A0.b r) :
    missingRoles F (statusCounts A0.a).1 (statusCounts A0.b).1 qNow =
      specMissingRoles F A0 qNow := by
  unfold missingRoles specMissingRoles
  congr 1
  funext r
  rw [hA r, hB r]

theorem statusCounts_spec (l : List AssignRow)
    (hk : ∀ x ∈ l, knownRole x.role = true) :
    (statusCounts l).2 = l.length ∧
    (∀ r, (statusCounts l).1.get r = countRoleRows l r) := by
  have h := statusCounts_go l ⟨0, 0, 0⟩ 0 hk
  unfold statusCounts
  refine ⟨by rw [h.1]; omega, fun r => ?_⟩
  rw [h.2 r, RoleCounts.get_zero]
  omega

/-- C1 counterexample: with both formations 2-2-2, an empty assignment table
and twelve queued players (no characters chosen, so no conflicts), a single
pass assigns and persists all twelve players — the recomputed post-persist
total across both teams is 12 — yet the notice decision, computed from the
pre-pass snapshot, is NOT "teams full" but a "players needed" shortfall of
4 support, 4 tank and 4 dps. -/
theorem c1_counterexample :
    (process "forming" ⟨some ⟨2, 2, 2⟩, some ⟨2, 2, 2⟩⟩
        [⟨1, "support", none, 1⟩, ⟨2, "support", none, 2⟩, ⟨3, "support", none, 3⟩,
         ⟨4, "support", none, 4⟩, ⟨5, "tank", none, 5⟩, ⟨6, "tank", none, 6⟩,
         ⟨7, "tank", none, 7⟩, ⟨8, "tank", none, 8⟩, ⟨9, "dps", none, 9⟩,
         ⟨10, "dps", none, 10⟩, ⟨11, "dps", none, 11⟩, ⟨12, "dps", none, 12⟩]
        ⟨[], []⟩).assignments.a.length +
      (process "forming" ⟨some ⟨2, 2, 2⟩, some ⟨2, 2, 2⟩⟩
        [⟨1, "support", none, 1⟩, ⟨2, "support", none, 2⟩, ⟨3, "support", none, 3⟩,
         ⟨4, "support", none, 4⟩, ⟨5, "tank", none, 5⟩, ⟨6, "tank", none, 6⟩,
         ⟨7, "tank", none, 7⟩, ⟨8, "tank", none, 8⟩, ⟨9, "dps", none, 9⟩,
         ⟨10, "dps", none, 10⟩, ⟨11, "dps", none, 11⟩, ⟨12, "dps", none, 12⟩]
        ⟨[], []⟩).assignments.b.length = 12 ∧
    (process "forming" ⟨some ⟨2, 2, 2⟩, some ⟨2, 2, 2⟩⟩
        [⟨1, "support", none, 1⟩, ⟨2, "support", none, 2⟩, ⟨3, "support", none, 3⟩,
         ⟨4, "support", none, 4⟩, ⟨5, "tank", none, 5⟩, ⟨6, "tank", none, 6⟩,
         ⟨7, "tank", none, 7⟩, ⟨8, "tank", none, 8⟩, ⟨9, "dps", none, 9⟩,
         ⟨10, "dps", none, 10⟩, ⟨11, "dps", none, 11⟩, ⟨12, "dps", none, 12⟩]
        ⟨[], []⟩).notices =
      some { teamsFull := false,
             missing := [(4, "support"), (4, "tank"), (4, "dps")] } := by
  decide

/-- C1 amended: the notice decision of a pass is computed from the assignment
snapshot loaded BEFORE the pass (not the post-persist state): "teams full" is
surfaced exactly when the pre-pass assigned total across both teams equals 12,
and otherwise the shortfall list equals the spec formula
`stillNeeded = requirement - assigned - queued` evaluated on the pre-pass
assignment counts and the post-persist queue. -/
theorem c1_notices_from_prepass_snapshot (status : String) (F : Formations)
    (Q : List Player) (A0 : Assignments)
    (hstatus : status = "forming")
    (hroles : ∀ x ∈ A0.a ++ A0.b, knownRole x.role = true)
    (hform : F.isEmpty = false) (hq : Q ≠ []) :
    ∃ n, (process status F Q A0).notices = some n ∧
      (n.teamsFull = true ↔ A0.a.length + A0.b.length = 12) ∧
      (n.teamsFull = false →
        n.missing = specMissingRoles F A0 (process status F Q A0).queue) := by
  subst hstatus
  have hA := statusCounts_spec A0.a
    (fun x hx => hroles x (List.mem_append_left _ hx))
  have hB := statusCounts_spec A0.b
    (fun x hx => hroles x (List.mem_append_right _ hx))
  have hproc : process "forming" F Q A0 =
      { queue := (executePersist Q A0 (findMatches F Q A0).matched).1
        assignments := (executePersist Q A0 (findMatches F Q A0).matched).2
        matched := (findMatches F Q A0).matched
        notices := some (checkTeamStatus F A0
          (executePersist Q A0 (findMatches F Q A0).matched).1)
        conflicts := (findMatches F Q A0).conflicts } := by
    unfold process
    rw [if_neg (by decide), if_neg (by simp [hform, hq])]
  rw [hproc]
  simp only
  have hcts : checkTeamStatus F A0 (executePersist Q A0 (findMatches F Q A0).matched).1 =
      if (statusCounts A0.a).2 + (statusCounts A0.b).2 = 12 then
        { teamsFull := true, missing := [] }
      else
        { teamsFull := false
          missing := missingRoles F (statusCounts A0.a).1 (statusCounts A0.b).1
            (executePersist Q A0 (findMatches F Q A0).matched).1 } := rfl
  rw [hcts]
  by_cases h12 : (statusCounts A0.a).2 + (statusCounts A0.b).2 = 12
  · rw [if_pos h12]
    rw [hA.1, hB.1] at h12
    exact ⟨_, rfl, by simp [h12], by simp⟩
  · rw [if_neg h12]
    rw [hA.1, hB.1] at h12
    refine ⟨_, rfl, by simp [h12], fun _ => ?_⟩
    exact missingRoles_eq_spec F A0 _ hA.2 hB.2

theorem c1_notices_from_prepass_snapshot_witness :
    ("forming" = "forming" ∧
      (∀ x ∈ ([⟨9, "dps", none⟩] : List AssignRow) ++ ([] : List AssignRow),
        knownRole x.role = true) ∧
      Formations.isEmpty ⟨some ⟨2, 2, 2⟩, some ⟨2, 2, 2⟩⟩ = false ∧
      ([⟨5, "tank", none, 5⟩] : List Player) ≠ []) ∧
    ∃ n, (process "forming" ⟨some ⟨2, 2, 2⟩, some ⟨2, 2, 2⟩⟩
        [⟨5, "tank", none, 5⟩] ⟨[⟨9, "dps", none⟩], []⟩).notices = some n ∧
      (n.teamsFull = true ↔
        ([⟨9, "dps", none⟩] : List AssignRow).length + ([] : List AssignRow).length = 12) ∧
      (n.teamsFull = false →
        n.missing = specMissingRoles ⟨some ⟨2, 2, 2⟩, some ⟨2, 2, 2⟩⟩
          ⟨[⟨9, "dps", none⟩], []⟩
          (process "forming" ⟨some ⟨2, 2, 2⟩, some ⟨2, 2, 2⟩⟩
            [⟨5, "tank", none, 5⟩] ⟨[⟨9, "dps", none⟩], []⟩).queue) :=
  ⟨⟨rfl, by decide, by decide, by decide⟩,
   c1_notices_from_prepass_snapshot "forming" ⟨some ⟨2, 2, 2⟩, some ⟨2, 2, 2⟩⟩
     [⟨5, "tank", none, 5⟩] ⟨[⟨9, "dps", none⟩], []⟩ rfl (by decide) (by decide)
     (by decide)⟩

/-! ### Matching-engine bookkeeping -/

/-- Player ids of the matches accepted so far, in acceptance order. -/
def matchedIds (ms : List MatchEntry) : List Nat :=
  ms.map (fun m => m.player.discord_id)

/-- The assignment rows a list of matches persists onto one team. -/
def rowsOf (ms : List MatchEntry) (t : Team) : List AssignRow :=
  (ms.filter (fun m => m.team = t)).map
    (fun m => ⟨m.player.discord_id, m.role, m.player.character⟩)

/-- The non-null characters of a list of assignment rows. -/
def charsOfRows (l : List AssignRow) : List String :=
  l.filterMap (fun x => x.character)

def pairOf (m : MatchEntry) : Team × String := (m.team, m.role)

theorem matchedIds_append (x y : List MatchEntry) :
    matchedIds (x ++ y) = matchedIds x ++ matchedIds y := by
  unfold matchedIds
  rw [List.map_append]

theorem rowsOf_append (x y : List MatchEntry) (t : Team) :
    rowsOf (x ++ y) t = rowsOf x t ++ rowsOf y t := by
  unfold rowsOf
  rw [List.filter_append, List.map_append]

theorem charsOfRows_append (x y : List AssignRow) :
    charsOfRows (x ++ y) = charsOfRows x ++ charsOfRows y := by
  unfold charsOfRows
  rw [List.filterMap_append]

theorem countRoleRows_append (x y : List AssignRow) (r : String) :
    countRoleRows (x ++ y) r = countRoleRows x r + countRoleRows y r := by
  unfold countRoleRows
  rw [List.filter_append, List.length_append]

theorem countRoleRows_rowsOf_zero {ms : List MatchEntry} {t : Team} {r : String}
    (h : ∀ m ∈ ms, ¬(m.team = t ∧ m.role = r)) :
    countRoleRows (rowsOf ms t) r = 0 := by
  unfold countRoleRows rowsOf
  rw [List.length_eq_zero, List.filter_eq_nil]
  intro x hx
  simp only [List.mem_map, List.mem_filter, decide_eq_true_eq] at hx
  obtain ⟨m, ⟨hm, hmt⟩, rfl⟩ := hx
  simp only [decide_eq_true_eq]
  exact fun hr => h m hm ⟨hmt, hr⟩

theorem countRoleRows_rowsOf_full {ms : List MatchEntry} {t : Team} {r : String}
    (h : ∀ m ∈ ms, m.team = t ∧ m.role = r) :
    countRoleRows (rowsOf ms t) r = ms.length := by
  unfold countRoleRows rowsOf
  have h1 : List.filter (fun m => decide (m.team = t)) ms = ms :=
    List.filter_eq_self.mpr (fun m hm => by simp [(h m hm).1])
  rw [h1]
  have h2 : List.filter (fun x => decide (x.role = r))
      (ms.map (fun m =>
        (⟨m.player.discord_id, m.role, m.player.character⟩ : AssignRow))) =
      ms.map (fun m =>
        (⟨m.player.discord_id, m.role, m.player.character⟩ : AssignRow)) := by
    refine List.filter_eq_self.mpr (fun x hx => ?_)
    simp only [List.mem_map] at hx
    obtain ⟨m, hm, rfl⟩ := hx
    simp [(h m hm).2]
  rw [h2, List.length_map]

theorem assignPlayer_matched (s : MatchState) (t : Team) (r : String) (p : Player) :
    (s.assignPlayer t r p).matched = s.matched ++ [{ team := t, player := p, role := r }] := by
  unfold MatchState.assignPlayer
  cases t <;> simp [MatchState.setTeam, MatchState.team]

theorem assignPlayer_remaining (s : MatchState) (t : Team) (r : String) (p : Player) :
    (s.assignPlayer t r p).remaining =
      s.remaining.filter (fun x => x.discord_id ≠ p.discord_id) := by
  unfold MatchState.assignPlayer
  cases t <;> simp [MatchState.setTeam, MatchState.team]

theorem assignPlayer_conflicts (s : MatchState) (t : Team) (r : String) (p : Player) :
    (s.assignPlayer t r p).conflicts = s.conflicts := by
  unfold MatchState.assignPlayer
  cases t <;> simp [MatchState.setTeam, MatchState.team]

theorem assignPlayer_chars (s : MatchState) (t : Team) (r : String) (p : Player)
    (t2 : Team) :
    ((s.assignPlayer t r p).team t2).chars =
      (s.team t2).chars ++
        (if t2 = t then
          (match p.character with | some c => [c] | none => []) else []) := by
  unfold MatchState.assignPlayer
  cases t <;> cases t2 <;> cases hpc : p.character <;>
    simp [MatchState.setTeam, MatchState.team, hpc]

theorem assignPlayer_counts (s : MatchState) (t : Team) (r : String) (p : Player)
    (t2 : Team) :
    ((s.assignPlayer t r p).team t2).counts =
      (if t2 = t then (s.team t).counts.incr r else (s.team t2).counts) := by
  unfold MatchState.assignPlayer
  cases t <;> cases t2 <;> simp [MatchState.setTeam, MatchState.team]

/-- Everything `assignLoop` does to the state: it appends a block of matches
for this (team, role) taken from `avail`, appends to the character sets, and
never shrinks anything. -/
theorem assignLoop_delta (t : Team) (r : String) (needed : Int) :
    ∀ (avail : List Player) (k : Nat) (s : MatchState), ∃ Δ : List MatchEntry,
      (assignLoop t r needed avail k s).matched = s.matched ++ Δ ∧
      (∀ t2, ∃ cs, ((assignLoop t r needed avail k s).team t2).chars =
        (s.team t2).chars ++ cs) ∧
      (∀ m ∈ Δ, m.team = t ∧ m.role = r ∧ m.player ∈ avail) := by
  intro avail
  induction avail with
  | nil =>
    intro k s
    exact ⟨[], by simp [assignLoop], fun t2 => ⟨[], by simp [assignLoop]⟩,
      by simp⟩
  | cons p rest ih =>
    intro k s
    by_cases hk : (k : Int) < needed
    · cases hc : conflictChar p (s.team t).chars with
      | some c =>
        obtain ⟨Δ, h1, h2, h3⟩ := ih k
          { s with conflicts := s.conflicts ++ [(p.discord_id, c)] }
        refine ⟨Δ, ?_, ?_, fun m hm => ?_⟩
        · rw [assignLoop, if_pos hk, hc]
          exact h1
        · intro t2
          obtain ⟨cs, hcs⟩ := h2 t2
          refine ⟨cs, ?_⟩
          rw [assignLoop, if_pos hk, hc]
          exact hcs
        · obtain ⟨hm1, hm2, hm3⟩ := h3 m hm
          exact ⟨hm1, hm2, List.mem_cons_of_mem p hm3⟩
      | none =>
        obtain ⟨Δ, h1, h2, h3⟩ := ih (k + 1) (s.assignPlayer t r p)
        have hms : (s.assignPlayer t r p).matched =
            s.matched ++ [{ team := t, player := p, role := r }] :=
          assignPlayer_matched s t r p
        have hchars : ∀ t2, ∃ cs0, ((s.assignPlayer t r p).team t2).chars =
            (s.team t2).chars ++ cs0 :=
          fun t2 => ⟨_, assignPlayer_chars s t r p t2⟩
        refine ⟨{ team := t, player := p, role := r } :: Δ, ?_, ?_, fun m hm => ?_⟩
        · rw [assignLoop, if_pos hk, hc, h1, hms]
          simp
        · intro t2
          obtain ⟨cs, hcs⟩ := h2 t2
          obtain ⟨cs0, hcs0⟩ := hchars t2
          refine ⟨cs0 ++ cs, ?_⟩
          rw [assignLoop, if_pos hk, hc, hcs, hcs0]
          simp
        · rcases List.mem_cons.mp hm with rfl | hm2
          · exact ⟨rfl, rfl, List.mem_cons_self p rest⟩
          · obtain ⟨hm1, hm2, hm3⟩ := h3 m hm2
            exact ⟨hm1, hm2, List.mem_cons_of_mem p hm3⟩
    · refine ⟨[], ?_, fun t2 => ⟨[], ?_⟩, by simp⟩
      · rw [assignLoop, if_neg hk]
        simp
      · rw [assignLoop, if_neg hk]
        simp

theorem knownRole_iff (r : String) :
    knownRole r = true ↔ (r = "support" ∨ r = "tank" ∨ r = "dps") := by
  simp [knownRole, or_assoc]

theorem countsFold_get (l : List AssignRow) :
    ∀ (rc0 : RoleCounts) (r : String), knownRole r = true →
      (l.foldl (fun rc x => rc.incr x.role) rc0).get r =
        rc0.get r + countRoleRows l r := by
  induction l with
  | nil =>
    intro rc0 r _
    simp [countRoleRows]
  | cons x l ih =>
    intro rc0 r hr
    rw [List.foldl_cons, ih _ r hr, RoleCounts.get_incr, countRoleRows_cons]
    by_cases hxr : x.role = r
    · have hx : x.role = "support" ∨ x.role = "tank" ∨ x.role = "dps" := by
        rw [hxr]
        exact (knownRole_iff r).mp hr
      rw [if_pos ⟨hxr.symm, hx⟩, if_pos hxr]
      omega
    · rw [if_neg (fun hc => hxr hc.1.symm), if_neg hxr]
      omega

theorem rowsOf_single (m : MatchEntry) (t : Team) :
    rowsOf [m] t =
      (if m.team = t then
        [⟨m.player.discord_id, m.role, m.player.character⟩] else []) := by
  unfold rowsOf
  by_cases h : m.team = t <;> simp [h]

theorem rowsOf_cons_entry (t t2 : Team) (p : Player) (r : String) :
    rowsOf [({ team := t, player := p, role := r } : MatchEntry)] t2 =
      (if t = t2 then [⟨p.discord_id, r, p.character⟩] else []) := by
  unfold rowsOf
  by_cases h : t = t2 <;> simp [h]

theorem countRoleRows_single_pos (x : AssignRow) (r : String) (h : x.role = r) :
    countRoleRows [x] r = 1 := by
  simp [countRoleRows, h]

theorem countRoleRows_single_neg (x : AssignRow) (r : String) (h : x.role ≠ r) :
    countRoleRows [x] r = 0 := by
  simp [countRoleRows, h]

theorem not_mem_matchedIds_append_single (a : Nat) (ms : List MatchEntry)
    (m : MatchEntry) :
    (a ∉ matchedIds (ms ++ [m])) ↔
      (a ∉ matchedIds ms ∧ a ≠ m.player.discord_id) := by
  rw [matchedIds_append]
  simp [matchedIds, not_or]

/-- The invariant of one matching pass relative to the pre-pass snapshots:
`σ` is the sorted queue and `A0` the assignment snapshot the pass started
from. It ties every mutable piece of `MatchState` back to `A0` and the list of
accepted matches. -/
structure PassInv (A0 : Assignments) (σ : List Player) (s : MatchState) : Prop where
  remaining_eq : s.remaining =
    σ.filter (fun p => decide (p.discord_id ∉ matchedIds s.matched))
  counts_eq : ∀ t r, knownRole r = true →
    (s.team t).counts.get r =
      countRoleRows (A0.get t) r + countRoleRows (rowsOf s.matched t) r
  chars_eq : ∀ t, (s.team t).chars =
    charsOfRows (A0.get t) ++ charsOfRows (rowsOf s.matched t)
  matched_mem : ∀ m ∈ s.matched, m.player ∈ σ
  matched_role : ∀ m ∈ s.matched, m.player.role = m.role ∧ knownRole m.role = true
  matched_chars_ok : ∀ m ∈ s.matched, ∀ c, m.player.character = some c →
    c ∉ charsOfRows (A0.get m.team)
  matched_nodup : (matchedIds s.matched).Nodup

theorem initState_inv (A0 : Assignments) (Q : List Player) :
    PassInv A0 (sortQueue Q) (initState A0 Q) := by
  have hteam : ∀ t, (initState A0 Q).team t = initTeamState (A0.get t) := by
    intro t
    cases t <;> rfl
  refine ⟨?_, ?_, ?_, ?_, ?_, ?_, ?_⟩
  · simp [initState, matchedIds]
  · intro t r hr
    rw [hteam t]
    unfold initTeamState
    simp only
    rw [countsFold_get _ _ r hr, RoleCounts.get_zero]
    simp [initState, rowsOf, countRoleRows]
  · intro t
    rw [hteam t]
    unfold initTeamState
    simp [initState, rowsOf, charsOfRows]
  · intro m hm
    simp [initState] at hm
  · intro m hm
    simp [initState] at hm
  · intro m hm
    simp [initState] at hm
  · simp [initState, matchedIds]

theorem assignLoop_inv (A0 : Assignments) (σ : List Player) (t : Team) (r : String)
    (hr : knownRole r = true) (needed : Int) :
    ∀ (avail : List Player) (k : Nat) (s : MatchState),
      PassInv A0 σ s →
      (∀ p ∈ avail, p.role = r ∧ p ∈ σ) →
      ((avail.map (fun p => p.discord_id)).Nodup) →
      (∀ p ∈ avail, p.discord_id ∉ matchedIds s.matched) →
      PassInv A0 σ (assignLoop t r needed avail k s) := by
  intro avail
  induction avail with
  | nil =>
    intro k s hs _ _ _
    exact hs
  | cons p rest ih =>
    intro k s hs havail hnd hdisj
    by_cases hk : (k : Int) < needed
    · cases hc : conflictChar p (s.team t).chars with
      | some c =>
        rw [assignLoop, if_pos hk, hc]
        exact ih k _
          ⟨hs.remaining_eq, hs.counts_eq, hs.chars_eq, hs.matched_mem,
            hs.matched_role, hs.matched_chars_ok, hs.matched_nodup⟩
          (fun q hq => havail q (List.mem_cons_of_mem p hq))
          (by
            have : (∀ x ∈ rest, ¬x.discord_id = p.discord_id) ∧
                (List.map (fun q => q.discord_id) rest).Nodup := by simpa using hnd
            exact this.2)
          (fun q hq => hdisj q (List.mem_cons_of_mem p hq))
      | none =>
        rw [assignLoop, if_pos hk, hc]
        have hpid : p.discord_id ∉ matchedIds s.matched :=
          hdisj p (List.mem_cons_self p rest)
        have hprole : p.role = r := (havail p (List.mem_cons_self p rest)).1
        have hpmem : p ∈ σ := (havail p (List.mem_cons_self p rest)).2
        have hndc : (∀ x ∈ rest, ¬x.discord_id = p.discord_id) ∧
            (List.map (fun q => q.discord_id) rest).Nodup := by
          simpa using hnd
        have hnd2 : p.discord_id ∉ rest.map (fun q => q.discord_id) := by
          intro hmem
          obtain ⟨q, hq, hqe⟩ := List.mem_map.mp hmem
          exact hndc.1 q hq hqe
        have hids : matchedIds ((s.assignPlayer t r p).matched) =
            matchedIds s.matched ++ [p.discord_id] := by
          rw [assignPlayer_matched, matchedIds_append]
          rfl
        have hinv1 : PassInv A0 σ (s.assignPlayer t r p) := by
          refine ⟨?_, ?_, ?_, ?_, ?_, ?_, ?_⟩
          · rw [assignPlayer_remaining, hs.remaining_eq, List.filter_filter]
            apply List.filter_congr
            intro a _
            rw [assignPlayer_matched]
            simp [not_mem_matchedIds_append_single, Bool.and_comm]
          · intro t2 r2 hr2
            rw [assignPlayer_counts, assignPlayer_matched, rowsOf_append,
              countRoleRows_append, rowsOf_cons_entry]
            by_cases ht2 : t2 = t
            · subst ht2
              rw [if_pos rfl, if_pos rfl, RoleCounts.get_incr,
                hs.counts_eq t2 r2 hr2]
              by_cases hr2r : r2 = r
              · subst hr2r
                rw [if_pos ⟨rfl, (knownRole_iff r2).mp hr⟩,
                  countRoleRows_single_pos _ _ rfl]
                omega
              · rw [if_neg (fun hc2 => hr2r hc2.1),
                  countRoleRows_single_neg _ _ (fun hc2 => hr2r hc2.symm)]
                omega
            · rw [if_neg ht2, if_neg (fun hc2 => ht2 hc2.symm),
                hs.counts_eq t2 r2 hr2]
              simp [countRoleRows]
          · intro t2
            rw [assignPlayer_chars, assignPlayer_matched, rowsOf_append,
              charsOfRows_append, rowsOf_cons_entry, hs.chars_eq t2,
              List.append_assoc]
            by_cases ht2 : t2 = t
            · subst ht2
              rw [if_pos rfl, if_pos rfl]
              cases hpc : p.character <;> simp [charsOfRows, hpc]
            · rw [if_neg ht2, if_neg (fun hc2 => ht2 hc2.symm)]
              simp [charsOfRows]
          · intro m hm
            rw [assignPlayer_matched] at hm
            rcases List.mem_append.mp hm with hm2 | hm2
            · exact hs.matched_mem m hm2
            · rw [List.mem_singleton.mp hm2]
              exact hpmem
          · intro m hm
            rw [assignPlayer_matched] at hm
            rcases List.mem_append.mp hm with hm2 | hm2
            · exact hs.matched_role m hm2
            · rw [List.mem_singleton.mp hm2]
              exact ⟨hprole, hprole ▸ hr⟩
          · intro m hm c2 hc2
            rw [assignPlayer_matched] at hm
            rcases List.mem_append.mp hm with hm2 | hm2
            · exact hs.matched_chars_ok m hm2 c2 hc2
            · rw [List.mem_singleton.mp hm2] at hc2 ⊢
              simp only at hc2 ⊢
              intro hmem
              have hcc : conflictChar p ((s.team t).chars) = some c2 := by
                unfold conflictChar
                rw [hc2]
                dsimp only
                rw [if_pos (by
                  rw [hs.chars_eq t]
                  exact List.mem_append_left _ hmem)]
              rw [hc] at hcc
              exact Option.noConfusion hcc
          · rw [hids]
            rw [List.nodup_append]
            exact ⟨hs.matched_nodup, List.nodup_singleton _, by
              intro a ha hb
              rw [List.mem_singleton.mp hb] at ha
              exact hpid ha⟩
        refine ih (k + 1) _ hinv1
          (fun q hq => havail q (List.mem_cons_of_mem p hq))
          hndc.2 ?_
        intro q hq
        rw [hids]
        intro hmem
        rcases List.mem_append.mp hmem with h2 | h2
        · exact hdisj q (List.mem_cons_of_mem p hq) h2
        · exact hndc.1 q hq (List.mem_singleton.mp h2)
    · rw [assignLoop, if_neg hk]
      exact hs

theorem processTeamRole_inv (F : Formations) (A0 : Assignments) (σ : List Player)
    (hσ : (σ.map (fun p => p.discord_id)).Nodup)
    (s : MatchState) (tr : Team × String) (htr : knownRole tr.2 = true)
    (hs : PassInv A0 σ s) : PassInv A0 σ (processTeamRole F s tr) := by
  unfold processTeamRole
  apply assignLoop_inv A0 σ tr.1 tr.2 htr _ _ 0 s hs
  · intro p hp
    have hp2 := List.mem_filter.mp hp
    refine ⟨by simpa using hp2.2, ?_⟩
    rw [hs.remaining_eq] at hp2
    exact (List.mem_filter.mp hp2.1).1
  · have h1 : List.Sublist (s.remaining.filter (fun p => decide (p.role = tr.2))) σ := by
      rw [hs.remaining_eq]
      exact (List.filter_sublist _).trans (List.filter_sublist _)
    exact List.Nodup.sublist (h1.map _) hσ
  · intro p hp
    have hp2 := (List.mem_filter.mp hp).1
    rw [hs.remaining_eq] at hp2
    simpa using (List.mem_filter.mp hp2).2

theorem foldPairs_inv (F : Formations) (A0 : Assignments) (σ : List Player)
    (hσ : (σ.map (fun p => p.discord_id)).Nodup) :
    ∀ (pairs : List (Team × String)) (s : MatchState),
      (∀ tr ∈ pairs, knownRole tr.2 = true) → PassInv A0 σ s →
      PassInv A0 σ (pairs.foldl (processTeamRole F) s) := by
  intro pairs
  induction pairs with
  | nil => intro s _ hs; exact hs
  | cons tr rest ih =>
    intro s hk hs
    rw [List.foldl_cons]
    exact ih _ (fun x hx => hk x (List.mem_cons_of_mem tr hx))
      (processTeamRole_inv F A0 σ hσ s tr (hk tr (List.mem_cons_self tr rest)) hs)

theorem sortQueue_ids_nodup {Q : List Player}
    (hQ : (Q.map (fun p => p.discord_id)).Nodup) :
    ((sortQueue Q).map (fun p => p.discord_id)).Nodup :=
  (((List.perm_insertionSort byJoined Q).map (fun p => p.discord_id)).nodup_iff).mpr hQ

theorem findMatches_inv (F : Formations) (Q : List Player) (A0 : Assignments)
    (hQ : (Q.map (fun p => p.discord_id)).Nodup) :
    PassInv A0 (sortQueue Q) (findMatches F Q A0) := by
  unfold findMatches
  exact foldPairs_inv F A0 (sortQueue Q) (sortQueue_ids_nodup hQ) teamRoleOrder
    (initState A0 Q) (by decide) (initState_inv A0 Q)

/-! ### Persistence lemmas for `execute_matches` -/

theorem executePersist_queue (ms : List MatchEntry) :
    ∀ (q : List Player) (A : Assignments),
      (executePersist q A ms).1 =
        q.filter (fun x => decide (x.discord_id ∉ matchedIds ms)) := by
  induction ms with
  | nil =>
    intro q A
    simp [executePersist, matchedIds]
  | cons m rest ih =>
    intro q A
    unfold executePersist at ih ⊢
    rw [List.foldl_cons]
    dsimp only [applyMatch]
    rw [ih, List.filter_filter]
    apply List.filter_congr
    intro a _
    simp only [matchedIds, List.map_cons, List.mem_cons, not_or]
    simp [Bool.and_comm]

theorem executePersist_assignments (ms : List MatchEntry) :
    ∀ (A : Assignments) (q : List Player),
      (∀ pid ∈ matchedIds ms,
        (∀ x ∈ A.a, x.discord_id ≠ pid) ∧ (∀ x ∈ A.b, x.discord_id ≠ pid)) →
      (matchedIds ms).Nodup →
      ∀ t, (executePersist q A ms).2.get t = A.get t ++ rowsOf ms t := by
  induction ms with
  | nil =>
    intro A q _ _ t
    simp [executePersist, rowsOf]
  | cons m rest ih =>
    intro A q hdisj hnd t
    have hpid : ∀ x ∈ A.a, x.discord_id ≠ m.player.discord_id := by
      intro x hx
      exact (hdisj m.player.discord_id (by simp [matchedIds])).1 x hx
    have hpidb : ∀ x ∈ A.b, x.discord_id ≠ m.player.discord_id := by
      intro x hx
      exact (hdisj m.player.discord_id (by simp [matchedIds])).2 x hx
    have hfa : A.a.filter (fun x => x.discord_id ≠ m.player.discord_id) = A.a :=
      List.filter_eq_self.mpr (fun x hx => by simp [hpid x hx])
    have hfb : A.b.filter (fun x => x.discord_id ≠ m.player.discord_id) = A.b :=
      List.filter_eq_self.mpr (fun x hx => by simp [hpidb x hx])
    have hA1 : ∀ t2, (assignToTeam A m.team m.player m.role).get t2 =
        A.get t2 ++ rowsOf [m] t2 := by
      intro t2
      cases hmt : m.team <;> cases t2 <;>
        simp [assignToTeam, Assignments.get, hfa, hfb, rowsOf, hmt] <;>
        first
          | exact fun a ha => hpid a ha
          | exact fun a ha => hpidb a ha
    have hndrest : (matchedIds rest).Nodup := by
      have := hnd
      simp only [matchedIds, List.map_cons, List.nodup_cons] at this
      exact this.2
    have hmnotin : m.player.discord_id ∉ matchedIds rest := by
      have := hnd
      simp only [matchedIds, List.map_cons, List.nodup_cons] at this
      exact this.1
    unfold executePersist at ih ⊢
    rw [List.foldl_cons]
    dsimp only [applyMatch]
    have hsplit : rowsOf (m :: rest) t = rowsOf [m] t ++ rowsOf rest t := by
      rw [← rowsOf_append]
      rfl
    rw [ih _ _ ?hd hndrest t, hA1 t, hsplit, List.append_assoc]
    case hd =>
      intro pid hpmem
      have hpne : pid ≠ m.player.discord_id := by
        intro he
        rw [he] at hpmem
        exact hmnotin hpmem
      constructor
      · intro x hx
        have hx2 : x ∈ (assignToTeam A m.team m.player m.role).get Team.A := hx
        rw [hA1 Team.A] at hx2
        rcases List.mem_append.mp hx2 with h2 | h2
        · exact (hdisj pid (by
            simp only [matchedIds, List.map_cons, List.mem_cons]
            right
            simpa [matchedIds] using hpmem)).1 x h2
        · rw [rowsOf_single] at h2
          by_cases hmt : m.team = Team.A
          · rw [if_pos hmt] at h2
            rw [List.mem_singleton.mp h2]
            simpa using fun he => hpne he.symm
          · rw [if_neg hmt] at h2
            exact absurd h2 (List.not_mem_nil x)
      · intro x hx
        have hx2 : x ∈ (assignToTeam A m.team m.player m.role).get Team.B := hx
        rw [hA1 Team.B] at hx2
        rcases List.mem_append.mp hx2 with h2 | h2
        · exact (hdisj pid (by
            simp only [matchedIds, List.map_cons, List.mem_cons]
            right
            simpa [matchedIds] using hpmem)).2 x h2
        · rw [rowsOf_single] at h2
          by_cases hmt : m.team = Team.B
          · rw [if_pos hmt] at h2
            rw [List.mem_singleton.mp h2]
            simpa using fun he => hpne he.symm
          · rw [if_neg hmt] at h2
            exact absurd h2 (List.not_mem_nil x)

theorem assignToTeam_sublist (A : Assignments) (m : MatchEntry) (t : Team) :
    List.Sublist ((assignToTeam A m.team m.player m.role).get t)
      (A.get t ++ rowsOf [m] t) := by
  have hrow : rowsOf [m] t =
      (if m.team = t then
        [(⟨m.player.discord_id, m.role, m.player.character⟩ : AssignRow)]
      else []) := rowsOf_single m t
  by_cases hmt : m.team = t
  · rw [hrow, if_pos hmt, ← hmt]
    cases hmt2 : m.team <;>
      simp only [assignToTeam, Assignments.get] <;>
      exact (List.filter_sublist _).append (List.Sublist.refl _)
  · rw [hrow, if_neg hmt, List.append_nil]
    cases hmt2 : m.team <;> cases t <;>
      first
        | exact absurd hmt2 (by rw [hmt2] at hmt; exact fun _ => hmt rfl)
        | simp only [assignToTeam, Assignments.get] <;>
          first
            | exact List.filter_sublist _
            | exact (List.filter_sublist _).trans (List.Sublist.refl _)

theorem executePersist_sublist (ms : List MatchEntry) :
    ∀ (A : Assignments) (q : List Player) (t : Team),
      List.Sublist ((executePersist q A ms).2.get t) (A.get t ++ rowsOf ms t) := by
  induction ms with
  | nil =>
    intro A q t
    simp [executePersist, rowsOf]
  | cons m rest ih =>
    intro A q t
    unfold executePersist at ih ⊢
    rw [List.foldl_cons]
    dsimp only [applyMatch]
    have hsplit : rowsOf (m :: rest) t = rowsOf [m] t ++ rowsOf rest t := by
      rw [← rowsOf_append]
      rfl
    rw [hsplit, ← List.append_assoc]
    exact (ih _ _ t).trans
      ((assignToTeam_sublist A m t).append (List.Sublist.refl _))

/-! ### C4 — per-team character uniqueness -/

theorem assignLoop_chars_nodup (t : Team) (r : String) (needed : Int) :
    ∀ (avail : List Player) (k : Nat) (s : MatchState),
      (∀ t2, ((s.team t2).chars).Nodup) →
      ∀ t2, (((assignLoop t r needed avail k s).team t2).chars).Nodup := by
  intro avail
  induction avail with
  | nil =>
    intro k s hnd t2
    exact hnd t2
  | cons p rest ih =>
    intro k s hnd t2
    by_cases hk : (k : Int) < needed
    · cases hc : conflictChar p (s.team t).chars with
      | some c =>
        rw [assignLoop, if_pos hk, hc]
        exact ih k { s with conflicts := s.conflicts ++ [(p.discord_id, c)] }
          (fun t3 => hnd t3) t2
      | none =>
        rw [assignLoop, if_pos hk, hc]
        refine ih (k + 1) _ ?_ t2
        intro t3
        rw [assignPlayer_chars]
        by_cases ht3 : t3 = t
        · subst ht3
          rw [if_pos rfl]
          cases hpc : p.character with
          | some c =>
            have hcnot : c ∉ (s.team t3).chars := by
              intro hmem
              unfold conflictChar at hc
              rw [hpc] at hc
              dsimp only at hc
              rw [if_pos hmem] at hc
              exact Option.noConfusion hc
            rw [List.nodup_append]
            exact ⟨hnd t3, List.nodup_singleton _, by
              intro a ha hb
              rw [List.mem_singleton.mp hb] at ha
              exact hcnot ha⟩
          | none =>
            simpa using hnd t3
        · rw [if_neg ht3]
          simpa using hnd t3
    · rw [assignLoop, if_neg hk]
      exact hnd t2

theorem foldPairs_chars_nodup (F : Formations) :
    ∀ (pairs : List (Team × String)) (s : MatchState),
      (∀ t2, ((s.team t2).chars).Nodup) →
      ∀ t2, (((pairs.foldl (processTeamRole F) s).team t2).chars).Nodup := by
  intro pairs
  induction pairs with
  | nil => intro s hnd t2; exact hnd t2
  | cons tr rest ih =>
    intro s hnd t2
    rw [List.foldl_cons]
    exact ih _ (fun t3 => assignLoop_chars_nodup tr.1 tr.2 _ _ 0 s hnd t3) t2

theorem findMatches_chars_nodup (F : Formations) (Q : List Player)
    (A0 : Assignments) (hA : (charsOfRows A0.a).Nodup)
    (hB : (charsOfRows A0.b).Nodup) :
    ∀ t, (((findMatches F Q A0).team t).chars).Nodup := by
  unfold findMatches
  apply foldPairs_chars_nodup
  intro t2
  cases t2
  · exact hA
  · exact hB

theorem process_noop (status : String) (F : Formations) (Q : List Player)
    (A0 : Assignments)
    (h : (status = "locked" ∨ status = "ended" ∨ status = "active") ∨
      (F.isEmpty ∨ Q = [])) :
    process status F Q A0 =
      { queue := Q, assignments := A0, matched := [], notices := none,
        conflicts := [] } := by
  unfold process
  rcases h with h | h
  · rw [if_pos h]
  · by_cases h1 : status = "locked" ∨ status = "ended" ∨ status = "active"
    · rw [if_pos h1]
    · rw [if_neg h1, if_pos h]

theorem process_run (status : String) (F : Formations) (Q : List Player)
    (A0 : Assignments)
    (h1 : ¬(status = "locked" ∨ status = "ended" ∨ status = "active"))
    (h2 : ¬(F.isEmpty ∨ Q = [])) :
    process status F Q A0 =
      { queue := (executePersist Q A0 (findMatches F Q A0).matched).1
        assignments := (executePersist Q A0 (findMatches F Q A0).matched).2
        matched := (findMatches F Q A0).matched
        notices := some (checkTeamStatus F A0
          (executePersist Q A0 (findMatches F Q A0).matched).1)
        conflicts := (findMatches F Q A0).conflicts } := by
  unfold process
  rw [if_neg h1, if_neg h2]

theorem players_id_inj {l : List Player}
    (h : (l.map (fun p => p.discord_id)).Nodup) {x y : Player}
    (hx : x ∈ l) (hy : y ∈ l) (he : x.discord_id = y.discord_id) : x = y :=
  List.inj_on_of_nodup_map h hx hy he

/-- C4: starting from a state whose per-team assignment rows have pairwise
distinct non-null characters (and a queue respecting the table's one-row-per-
player key), one `process` pass preserves that invariant, and a queued player
whose chosen character is already taken on BOTH teams is deferred: they are
not matched and their queue row survives the pass. -/
theorem c4_no_duplicate_characters (status : String) (F : Formations)
    (Q : List Player) (A0 : Assignments)
    (hids : (Q.map (fun p => p.discord_id)).Nodup)
    (hA : (charsOfRows A0.a).Nodup) (hB : (charsOfRows A0.b).Nodup) :
    ((charsOfRows (process status F Q A0).assignments.a).Nodup ∧
     (charsOfRows (process status F Q A0).assignments.b).Nodup) ∧
    (∀ p ∈ Q, ∀ c, p.character = some c →
      c ∈ charsOfRows A0.a → c ∈ charsOfRows A0.b →
      p ∈ (process status F Q A0).queue ∧
      p.discord_id ∉ matchedIds (process status F Q A0).matched) := by
  by_cases hg1 : status = "locked" ∨ status = "ended" ∨ status = "active"
  · rw [process_noop status F Q A0 (Or.inl hg1)]
    exact ⟨⟨hA, hB⟩, fun p hp c hc hca hcb => ⟨hp, by simp [matchedIds]⟩⟩
  by_cases hg2 : F.isEmpty ∨ Q = []
  · rw [process_noop status F Q A0 (Or.inr hg2)]
    exact ⟨⟨hA, hB⟩, fun p hp c hc hca hcb => ⟨hp, by simp [matchedIds]⟩⟩
  · have hrun := process_run status F Q A0 hg1 hg2
    have hass : (process status F Q A0).assignments =
        (executePersist Q A0 (findMatches F Q A0).matched).2 := by rw [hrun]
    have hque : (process status F Q A0).queue =
        (executePersist Q A0 (findMatches F Q A0).matched).1 := by rw [hrun]
    have hmat : (process status F Q A0).matched =
        (findMatches F Q A0).matched := by rw [hrun]
    have hinv := findMatches_inv F Q A0 hids
    have hnotmatched : ∀ p ∈ Q, ∀ c, p.character = some c →
        c ∈ charsOfRows A0.a → c ∈ charsOfRows A0.b →
        p.discord_id ∉ matchedIds (findMatches F Q A0).matched := by
      intro p hp c hc hca hcb hmem
      obtain ⟨m, hm, hmid⟩ := List.mem_map.mp hmem
      have hpm : m.player = p := by
        apply players_id_inj (sortQueue_ids_nodup hids)
          (hinv.matched_mem m hm)
          ((List.perm_insertionSort byJoined Q).mem_iff.mpr hp) hmid
      have := hinv.matched_chars_ok m hm c (by rw [hpm]; exact hc)
      cases hmt : m.team
      · rw [hmt] at this
        exact this hca
      · rw [hmt] at this
        exact this hcb
    refine ⟨⟨?_, ?_⟩, ?_⟩
    · rw [hass]
      show (charsOfRows
        ((executePersist Q A0 (findMatches F Q A0).matched).2.get Team.A)).Nodup
      have hsub := (executePersist_sublist ((findMatches F Q A0).matched) A0 Q
        Team.A).filterMap (fun x : AssignRow => x.character)
      have hnd : (charsOfRows (A0.get Team.A ++
          rowsOf (findMatches F Q A0).matched Team.A)).Nodup := by
        rw [charsOfRows_append, ← hinv.chars_eq Team.A]
        exact findMatches_chars_nodup F Q A0 hA hB Team.A
      exact List.Nodup.sublist hsub hnd
    · rw [hass]
      show (charsOfRows
        ((executePersist Q A0 (findMatches F Q A0).matched).2.get Team.B)).Nodup
      have hsub := (executePersist_sublist ((findMatches F Q A0).matched) A0 Q
        Team.B).filterMap (fun x : AssignRow => x.character)
      have hnd : (charsOfRows (A0.get Team.B ++
          rowsOf (findMatches F Q A0).matched Team.B)).Nodup := by
        rw [charsOfRows_append, ← hinv.chars_eq Team.B]
        exact findMatches_chars_nodup F Q A0 hA hB Team.B
      exact List.Nodup.sublist hsub hnd
    · intro p hp c hc hca hcb
      rw [hque, hmat]
      have hq := executePersist_queue ((findMatches F Q A0).matched) Q A0
      refine ⟨?_, hnotmatched p hp c hc hca hcb⟩
      rw [hq]
      exact List.mem_filter.mpr ⟨hp, by
        simpa using hnotmatched p hp c hc hca hcb⟩

theorem c4_no_duplicate_characters_witness :
    ((([⟨1, "tank", some "Hulk", 0⟩, ⟨2, "tank", some "Hulk", 1⟩] :
        List Player).map (fun p => p.discord_id)).Nodup ∧
      (charsOfRows [⟨3, "tank", some "Hulk"⟩]).Nodup ∧
      (charsOfRows [⟨4, "tank", some "Hulk"⟩]).Nodup) ∧
    ((charsOfRows (process "forming" ⟨some ⟨0, 2, 0⟩, some ⟨0, 2, 0⟩⟩
        [⟨1, "tank", some "Hulk", 0⟩, ⟨2, "tank", some "Hulk", 1⟩]
        ⟨[⟨3, "tank", some "Hulk"⟩], [⟨4, "tank", some "Hulk"⟩]⟩).assignments.a).Nodup ∧
      (⟨1, "tank", some "Hulk", 0⟩ : Player) ∈
        (process "forming" ⟨some ⟨0, 2, 0⟩, some ⟨0, 2, 0⟩⟩
          [⟨1, "tank", some "Hulk", 0⟩, ⟨2, "tank", some "Hulk", 1⟩]
          ⟨[⟨3, "tank", some "Hulk"⟩], [⟨4, "tank", some "Hulk"⟩]⟩).queue) :=
  ⟨⟨by decide, by decide, by decide⟩,
   (c4_no_duplicate_characters "forming" ⟨some ⟨0, 2, 0⟩, some ⟨0, 2, 0⟩⟩
       [⟨1, "tank", some "Hulk", 0⟩, ⟨2, "tank", some "Hulk", 1⟩]
       ⟨[⟨3, "tank", some "Hulk"⟩], [⟨4, "tank", some "Hulk"⟩]⟩
       (by decide) (by decide) (by decide)).1.1,
   ((c4_no_duplicate_characters "forming" ⟨some ⟨0, 2, 0⟩, some ⟨0, 2, 0⟩⟩
       [⟨1, "tank", some "Hulk", 0⟩, ⟨2, "tank", some "Hulk", 1⟩]
       ⟨[⟨3, "tank", some "Hulk"⟩], [⟨4, "tank", some "Hulk"⟩]⟩
       (by decide) (by decide) (by decide)).2
     ⟨1, "tank", some "Hulk", 0⟩ (by decide) "Hulk" rfl
     (by decide) (by decide)).1⟩

/-! ### C6 — idempotence of a pass -/

theorem conflictChar_some_iff {p : Player} {cs : List String} {c : String} :
    conflictChar p cs = some c ↔ p.character = some c ∧ c ∈ cs := by
  unfold conflictChar
  cases hpc : p.character with
  | none => simp
  | some c2 =>
    dsimp only
    by_cases hm : c2 ∈ cs
    · rw [if_pos hm]
      constructor
      · intro he
        cases he
        exact ⟨rfl, hm⟩
      · intro ⟨h1, _⟩
        cases h1
        rfl
    · rw [if_neg hm]
      constructor
      · intro he
        exact Option.noConfusion he
      · intro ⟨h1, h2⟩
        cases h1
        exact absurd h2 hm

theorem assignLoop_stop (t : Team) (r : String) (needed : Int)
    (avail : List Player) (s : MatchState) (h : ¬((0 : Int) < needed)) :
    assignLoop t r needed avail 0 s = s := by
  cases avail with
  | nil => rfl
  | cons p rest =>
    rw [assignLoop]
    rw [if_neg (by simpa using h)]

theorem assignLoop_all_conflict (t : Team) (r : String) (needed : Int) :
    ∀ (avail : List Player) (k : Nat) (s : MatchState),
      (∀ p ∈ avail, ∃ c, p.character = some c ∧ c ∈ (s.team t).chars) →
      ((assignLoop t r needed avail k s).matched = s.matched ∧
       (assignLoop t r needed avail k s).remaining = s.remaining ∧
       ∀ t2, (assignLoop t r needed avail k s).team t2 = s.team t2) := by
  intro avail
  induction avail with
  | nil =>
    intro k s _
    exact ⟨rfl, rfl, fun _ => rfl⟩
  | cons p rest ih =>
    intro k s h
    by_cases hk : (k : Int) < needed
    · obtain ⟨c, hpc, hcm⟩ := h p (List.mem_cons_self p rest)
      have hcc : conflictChar p (s.team t).chars = some c :=
        conflictChar_some_iff.mpr ⟨hpc, hcm⟩
      rw [assignLoop, if_pos hk, hcc]
      exact ih k { s with conflicts := s.conflicts ++ [(p.discord_id, c)] }
        (fun q hq => h q (List.mem_cons_of_mem p hq))
    · rw [assignLoop, if_neg hk]
      exact ⟨rfl, rfl, fun _ => rfl⟩

/-- The condition under which one (team, role) pair of a pass cannot assign
anybody: either the requirement is already covered by the counts, or every
remaining player of that role has а character already taken on the team. -/
def inertCond (F : Formations) (s : MatchState) (tr : Team × String) : Prop :=
  (F.get tr.1).get tr.2 ≤ (s.team tr.1).counts.get tr.2 ∨
  (∀ p ∈ s.remaining, p.role = tr.2 →
    ∃ c, p.character = some c ∧ c ∈ (s.team tr.1).chars)

theorem processTeamRole_inert (F : Formations) (s : MatchState)
    (tr : Team × String) (h : inertCond F s tr) :
    ((processTeamRole F s tr).matched = s.matched ∧
     (processTeamRole F s tr).remaining = s.remaining ∧
     ∀ t2, (processTeamRole F s tr).team t2 = s.team t2) := by
  unfold processTeamRole
  rcases h with h | h
  · rw [assignLoop_stop _ _ _ _ _ (by push_cast; omega)]
    exact ⟨rfl, rfl, fun _ => rfl⟩
  · exact assignLoop_all_conflict tr.1 tr.2 _ _ 0 s
      (fun p hp => h p (List.mem_of_mem_filter hp)
        (by simpa using (List.mem_filter.mp hp).2))

theorem foldPairs_inert (F : Formations) :
    ∀ (pairs : List (Team × String)) (s : MatchState),
      (∀ tr ∈ pairs, inertCond F s tr) →
      (((pairs.foldl (processTeamRole F) s).matched = s.matched) ∧
       ((pairs.foldl (processTeamRole F) s).remaining = s.remaining) ∧
       (∀ t2, (pairs.foldl (processTeamRole F) s).team t2 = s.team t2)) := by
  intro pairs
  induction pairs with
  | nil =>
    intro s _
    exact ⟨rfl, rfl, fun _ => rfl⟩
  | cons tr rest ih =>
    intro s h
    have h1 := processTeamRole_inert F s tr (h tr (List.mem_cons_self tr rest))
    rw [List.foldl_cons]
    have h2 := ih (processTeamRole F s tr) (by
      intro tr2 htr2
      unfold inertCond
      rw [h1.2.1, h1.2.2 tr2.1]
      exact h tr2 (List.mem_cons_of_mem tr htr2))
    exact ⟨h2.1.trans h1.1, h2.2.1.trans h1.2.1,
      fun t2 => (h2.2.2 t2).trans (h1.2.2 t2)⟩

theorem processTeamRole_delta (F : Formations) (s : MatchState)
    (tr : Team × String) :
    ∃ Δ : List MatchEntry,
      (processTeamRole F s tr).matched = s.matched ++ Δ ∧
      (∀ t2, ∃ cs, ((processTeamRole F s tr).team t2).chars =
        (s.team t2).chars ++ cs) ∧
      (∀ m ∈ Δ, m.team = tr.1 ∧ m.role = tr.2) := by
  obtain ⟨Δ, h1, h2, h3⟩ := assignLoop_delta tr.1 tr.2
    (((F.get tr.1).get tr.2 : Int) - ((s.team tr.1).counts.get tr.2 : Int))
    (s.remaining.filter (fun p => p.role = tr.2)) 0 s
  exact ⟨Δ, h1, h2, fun m hm => ⟨(h3 m hm).1, (h3 m hm).2.1⟩⟩

theorem foldPairs_delta (F : Formations) :
    ∀ (pairs : List (Team × String)) (s : MatchState),
      ∃ Δ : List MatchEntry,
        (pairs.foldl (processTeamRole F) s).matched = s.matched ++ Δ ∧
        (∀ t2, ∃ cs, ((pairs.foldl (processTeamRole F) s).team t2).chars =
          (s.team t2).chars ++ cs) := by
  intro pairs
  induction pairs with
  | nil =>
    intro s
    exact ⟨[], by simp, fun t2 => ⟨[], by simp⟩⟩
  | cons tr rest ih =>
    intro s
    obtain ⟨Δ1, h1, h2, _⟩ := processTeamRole_delta F s tr
    obtain ⟨Δ2, h3, h4⟩ := ih (processTeamRole F s tr)
    rw [List.foldl_cons]
    refine ⟨Δ1 ++ Δ2, ?_, ?_⟩
    · rw [h3, h1, List.append_assoc]
    · intro t2
      obtain ⟨cs1, hc1⟩ := h2 t2
      obtain ⟨cs2, hc2⟩ := h4 t2
      exact ⟨cs1 ++ cs2, by rw [hc2, hc1, List.append_assoc]⟩

theorem foldPairs_track (F : Formations) :
    ∀ (pairs : List (Team × String)) (s : MatchState),
      ∀ m ∈ (pairs.foldl (processTeamRole F) s).matched,
        m ∈ s.matched ∨ pairOf m ∈ pairs := by
  intro pairs
  induction pairs with
  | nil =>
    intro s m hm
    exact Or.inl hm
  | cons tr rest ih =>
    intro s m hm
    rw [List.foldl_cons] at hm
    rcases ih (processTeamRole F s tr) m hm with h | h
    · obtain ⟨Δ1, h1, _, h3⟩ := processTeamRole_delta F s tr
      rw [h1] at h
      rcases List.mem_append.mp h with h2 | h2
      · exact Or.inl h2
      · right
        have := h3 m h2
        unfold pairOf
        rw [this.1, this.2]
        exact List.mem_cons_self tr rest
    · exact Or.inr (List.mem_cons_of_mem tr h)

theorem assignLoop_outcome (t : Team) (r : String) (needed : Int) :
    ∀ (avail : List Player) (k : Nat) (s : MatchState) (p : Player), p ∈ avail →
      (∃ m ∈ (assignLoop t r needed avail k s).matched, m.player = p) ∨
      (∃ c, p.character = some c ∧
        c ∈ ((assignLoop t r needed avail k s).team t).chars) ∨
      (needed ≤ (k : Int) + (assignLoop t r needed avail k s).matched.length -
        s.matched.length) := by
  intro avail
  induction avail with
  | nil =>
    intro k s p hp
    exact absurd hp (List.not_mem_nil p)
  | cons q rest ih =>
    intro k s p hp
    by_cases hk : (k : Int) < needed
    · cases hcq : conflictChar q (s.team t).chars with
      | some c =>
        rw [assignLoop, if_pos hk, hcq]
        rcases List.mem_cons.mp hp with rfl | hp2
        · right
          left
          obtain ⟨hqc, hcm⟩ := conflictChar_some_iff.mp hcq
          obtain ⟨Δ, _, h2, _⟩ := assignLoop_delta t r needed rest k
            { s with conflicts := s.conflicts ++ [(p.discord_id, c)] }
          obtain ⟨cs, hcs⟩ := h2 t
          exact ⟨c, hqc, by rw [hcs]; exact List.mem_append_left _ hcm⟩
        · exact ih k _ p hp2
      | none =>
        rw [assignLoop, if_pos hk, hcq]
        rcases List.mem_cons.mp hp with rfl | hp2
        · left
          obtain ⟨Δ, h1, _, _⟩ := assignLoop_delta t r needed rest (k + 1)
            (s.assignPlayer t r p)
          refine ⟨{ team := t, player := p, role := r }, ?_, rfl⟩
          rw [h1, assignPlayer_matched]
          exact List.mem_append_left _ (by simp)
        · have hout := ih (k + 1) (s.assignPlayer t r q) p hp2
          rcases hout with h | h | h
          · exact Or.inl h
          · exact Or.inr (Or.inl h)
          · right
            right
            have hlen : (s.assignPlayer t r q).matched.length =
                s.matched.length + 1 := by
              rw [assignPlayer_matched, List.length_append]
              rfl
            rw [hlen] at h
            push_cast at h ⊢
            omega
    · rw [assignLoop, if_neg hk]
      right
      right
      push_cast
      omega

theorem nodup_split {α : Type} [DecidableEq α] {l1 l2 : List α} {a : α}
    (h : (l1 ++ a :: l2).Nodup) : a ∉ l1 ∧ a ∉ l2 := by
  rw [List.nodup_append] at h
  refine ⟨fun hmem => ?_, fun hmem => ?_⟩
  · exact h.2.2 hmem (List.mem_cons_self a l2)
  · exact (List.nodup_cons.mp h.2.1).1 hmem

theorem teamRoleOrder_known : ∀ x ∈ teamRoleOrder, knownRole x.2 = true := by
  decide

theorem initState_team (A0 : Assignments) (Q : List Player) (t : Team) :
    (initState A0 Q).team t = initTeamState (A0.get t) := by
  cases t <;> rfl

theorem initState_remaining (A0 : Assignments) (Q : List Player) :
    (initState A0 Q).remaining = sortQueue Q := rfl

theorem mem_sortQueue {p : Player} {l : List Player} :
    p ∈ sortQueue l ↔ p ∈ l :=
  (List.perm_insertionSort byJoined l).mem_iff

/-- After one pass has been persisted, no (team, role) pair of a second pass
on the persisted state can assign anybody (provided the queue respects the
table keys and no queued player already holds an assignment row). -/
theorem c6_pair_inert (F : Formations) (Q : List Player) (A0 : Assignments)
    (hQ : (Q.map (fun p => p.discord_id)).Nodup)
    (hdisj : ∀ p ∈ Q, (∀ x ∈ A0.a, x.discord_id ≠ p.discord_id) ∧
      (∀ x ∈ A0.b, x.discord_id ≠ p.discord_id))
    (tr : Team × String) (htr : tr ∈ teamRoleOrder) :
    inertCond F
      (initState (executePersist Q A0 (findMatches F Q A0).matched).2
        (executePersist Q A0 (findMatches F Q A0).matched).1) tr := by
  have hr : knownRole tr.2 = true := teamRoleOrder_known tr htr
  have hinv := findMatches_inv F Q A0 hQ
  have hMnodup : (matchedIds (findMatches F Q A0).matched).Nodup :=
    hinv.matched_nodup
  have hMdisj : ∀ pid ∈ matchedIds (findMatches F Q A0).matched,
      (∀ x ∈ A0.a, x.discord_id ≠ pid) ∧ (∀ x ∈ A0.b, x.discord_id ≠ pid) := by
    intro pid hpid
    obtain ⟨m, hm, rfl⟩ := List.mem_map.mp hpid
    exact hdisj m.player
      ((List.perm_insertionSort byJoined Q).mem_iff.mp (hinv.matched_mem m hm))
  have hA1 : ∀ t, (executePersist Q A0 (findMatches F Q A0).matched).2.get t =
      A0.get t ++ rowsOf (findMatches F Q A0).matched t :=
    executePersist_assignments _ A0 Q hMdisj hMnodup
  have hQ1 : (executePersist Q A0 (findMatches F Q A0).matched).1 =
      Q.filter (fun x =>
        decide (x.discord_id ∉ matchedIds (findMatches F Q A0).matched)) :=
    executePersist_queue _ Q A0
  obtain ⟨l1, l2, hsplit⟩ := List.append_of_mem htr
  have hnotl : tr ∉ l1 ∧ tr ∉ l2 :=
    nodup_split (hsplit ▸ (by decide : teamRoleOrder.Nodup))
  have hdecomp : findMatches F Q A0 = l2.foldl (processTeamRole F)
      (processTeamRole F (l1.foldl (processTeamRole F) (initState A0 Q)) tr) := by
    unfold findMatches
    rw [hsplit, List.foldl_append, List.foldl_cons]
  have huinv : PassInv A0 (sortQueue Q)
      (l1.foldl (processTeamRole F) (initState A0 Q)) :=
    foldPairs_inv F A0 _ (sortQueue_ids_nodup hQ) l1 _
      (fun x hx => teamRoleOrder_known x
        (by rw [hsplit]; exact List.mem_append_left _ hx))
      (initState_inv A0 Q)
  have hutrack : ∀ m ∈ (l1.foldl (processTeamRole F) (initState A0 Q)).matched,
      pairOf m ∈ l1 := by
    intro m hm
    rcases foldPairs_track F l1 (initState A0 Q) m hm with h | h
    · exact absurd h (by simp [initState])
    · exact h
  have hucount0 : countRoleRows
      (rowsOf (l1.foldl (processTeamRole F) (initState A0 Q)).matched tr.1)
      tr.2 = 0 := by
    apply countRoleRows_rowsOf_zero
    intro m hm hc
    apply hnotl.1
    have h1 := hutrack m hm
    unfold pairOf at h1
    rw [hc.1, hc.2] at h1
    simpa using h1
  have hucountsr :
      ((l1.foldl (processTeamRole F) (initState A0 Q)).team tr.1).counts.get tr.2 =
      countRoleRows (A0.get tr.1) tr.2 := by
    rw [huinv.counts_eq tr.1 tr.2 hr, hucount0]
    omega
  obtain ⟨Δ, hΔ1, hΔ2, hΔ3⟩ := processTeamRole_delta F
    (l1.foldl (processTeamRole F) (initState A0 Q)) tr
  obtain ⟨Δ2, hΔ21, hΔ22⟩ := foldPairs_delta F l2
    (processTeamRole F (l1.foldl (processTeamRole F) (initState A0 Q)) tr)
  have hM : (findMatches F Q A0).matched =
      (l1.foldl (processTeamRole F) (initState A0 Q)).matched ++ Δ ++ Δ2 := by
    rw [hdecomp, hΔ21, hΔ1]
  have hΔ2count : countRoleRows (rowsOf Δ2 tr.1) tr.2 = 0 := by
    apply countRoleRows_rowsOf_zero
    intro m hm hc
    have hmfold : m ∈ (l2.foldl (processTeamRole F)
        (processTeamRole F (l1.foldl (processTeamRole F) (initState A0 Q)) tr)).matched := by
      rw [hΔ21]
      exact List.mem_append_right _ hm
    rcases foldPairs_track F l2 _ m hmfold with h | h
    · exfalso
      have hnd2 : (matchedIds
          ((processTeamRole F (l1.foldl (processTeamRole F) (initState A0 Q)) tr).matched
            ++ Δ2)).Nodup := by
        rw [← hΔ21, ← hdecomp]
        exact hMnodup
      rw [matchedIds_append, List.nodup_append] at hnd2
      exact hnd2.2.2 (List.mem_map.mpr ⟨m, h, rfl⟩) (List.mem_map.mpr ⟨m, hm, rfl⟩)
    · apply hnotl.2
      have hpair : pairOf m = tr := by
        unfold pairOf
        rw [hc.1, hc.2]
      exact hpair ▸ h
  have hΔcount : countRoleRows (rowsOf Δ tr.1) tr.2 = Δ.length :=
    countRoleRows_rowsOf_full (fun m hm => hΔ3 m hm)
  have hMcount : countRoleRows
      (rowsOf (findMatches F Q A0).matched tr.1) tr.2 = Δ.length := by
    rw [hM, rowsOf_append, rowsOf_append, countRoleRows_append,
      countRoleRows_append, hucount0, hΔcount, hΔ2count]
    omega
  have hs2counts : ((initState (executePersist Q A0 (findMatches F Q A0).matched).2
      (executePersist Q A0 (findMatches F Q A0).matched).1).team tr.1).counts.get tr.2 =
      countRoleRows (A0.get tr.1) tr.2 + Δ.length := by
    rw [initState_team]
    unfold initTeamState
    simp only
    rw [countsFold_get _ _ _ hr, RoleCounts.get_zero, hA1 tr.1,
      countRoleRows_append, hMcount]
    omega
  have hs2chars : ((initState (executePersist Q A0 (findMatches F Q A0).matched).2
      (executePersist Q A0 (findMatches F Q A0).matched).1).team tr.1).chars =
      charsOfRows (A0.get tr.1) ++
        charsOfRows (rowsOf (findMatches F Q A0).matched tr.1) := by
    rw [initState_team]
    unfold initTeamState
    simp only
    rw [hA1 tr.1]
    unfold charsOfRows
    rw [List.filterMap_append]
  by_cases hcase : ((F.get tr.1).get tr.2 : Int) -
      (countRoleRows (A0.get tr.1) tr.2 : Int) ≤ (Δ.length : Int)
  · left
    rw [hs2counts]
    omega
  · right
    intro p hp hprole
    rw [initState_remaining] at hp
    have hp2 : p ∈ (executePersist Q A0 (findMatches F Q A0).matched).1 :=
      mem_sortQueue.mp hp
    rw [hQ1] at hp2
    have hpQ : p ∈ Q := (List.mem_filter.mp hp2).1
    have hpnotM : p.discord_id ∉ matchedIds (findMatches F Q A0).matched := by
      simpa using (List.mem_filter.mp hp2).2
    have hpu : p ∈ (l1.foldl (processTeamRole F) (initState A0 Q)).remaining := by
      rw [huinv.remaining_eq]
      refine List.mem_filter.mpr
        ⟨(List.perm_insertionSort byJoined Q).mem_iff.mpr hpQ, ?_⟩
      simp only [decide_eq_true_eq]
      intro hmem
      apply hpnotM
      rw [hM, matchedIds_append, matchedIds_append]
      exact List.mem_append_left _ (List.mem_append_left _ hmem)
    have hpavail : p ∈ (l1.foldl (processTeamRole F) (initState A0 Q)).remaining.filter
        (fun q => q.role = tr.2) :=
      List.mem_filter.mpr ⟨hpu, by simp [hprole]⟩
    have hveq : processTeamRole F (l1.foldl (processTeamRole F) (initState A0 Q)) tr =
        assignLoop tr.1 tr.2
          (((F.get tr.1).get tr.2 : Int) -
            (((l1.foldl (processTeamRole F) (initState A0 Q)).team tr.1).counts.get tr.2 : Int))
          ((l1.foldl (processTeamRole F) (initState A0 Q)).remaining.filter
            (fun q => q.role = tr.2)) 0
          (l1.foldl (processTeamRole F) (initState A0 Q)) := rfl
    have hout := assignLoop_outcome tr.1 tr.2
      (((F.get tr.1).get tr.2 : Int) -
        (((l1.foldl (processTeamRole F) (initState A0 Q)).team tr.1).counts.get tr.2 : Int))
      ((l1.foldl (processTeamRole F) (initState A0 Q)).remaining.filter
        (fun q => q.role = tr.2)) 0
      (l1.foldl (processTeamRole F) (initState A0 Q)) p hpavail
    rw [← hveq] at hout
    rcases hout with ⟨m, hm, hmp⟩ | ⟨c, hpc, hcm⟩ | hlen
    · exfalso
      apply hpnotM
      refine List.mem_map.mpr ⟨m, ?_, by rw [hmp]⟩
      rw [hM]
      rw [hΔ1] at hm
      exact List.mem_append_left _ hm
    · refine ⟨c, hpc, ?_⟩
      rw [hs2chars, hdecomp]
      obtain ⟨cs, hcs⟩ := hΔ22 tr.1
      have hchf := hinv.chars_eq tr.1
      rw [hdecomp] at hchf
      rw [← hchf, hcs]
      exact List.mem_append_left _ hcm
    · exfalso
      apply hcase
      have hvlen : (processTeamRole F (l1.foldl (processTeamRole F) (initState A0 Q))
          tr).matched.length =
          (l1.foldl (processTeamRole F) (initState A0 Q)).matched.length + Δ.length := by
        rw [hΔ1, List.length_append]
      rw [hvlen, hucountsr] at hlen
      push_cast at hlen ⊢
      omega

/-- C6 counterexample: player 1 already holds an Assignment row (team A,
support) while also sitting in the queue as dps. The first pass re-persists
them onto team B (the `INSERT OR REPLACE` moves their row), freeing the
team-A support slot, so a second run with no intervening queue or formation
change produces a brand-new assignment — `process` is not idempotent as
claimed over EVERY (formation, queue, assignment) triple. -/
theorem c6_counterexample :
    (process "forming" ⟨some ⟨1, 0, 0⟩, some ⟨0, 0, 1⟩⟩
      (process "forming" ⟨some ⟨1, 0, 0⟩, some ⟨0, 0, 1⟩⟩
        [⟨1, "dps", none, 0⟩, ⟨2, "support", none, 1⟩]
        ⟨[⟨1, "support", none⟩], []⟩).queue
      (process "forming" ⟨some ⟨1, 0, 0⟩, some ⟨0, 0, 1⟩⟩
        [⟨1, "dps", none, 0⟩, ⟨2, "support", none, 1⟩]
        ⟨[⟨1, "support", none⟩], []⟩).assignments).matched ≠ [] := by
  decide

/-- C6 amended: `process` is idempotent on states where no queued player
already holds an Assignment row: if the queue respects the table's
one-row-per-player key and queue ids are disjoint from assignment ids, then
re-running `process` on the resulting (queue, assignments) with the same
formation produces no new assignments. -/
theorem c6_idempotent_when_disjoint (status : String) (F : Formations)
    (Q : List Player) (A0 : Assignments)
    (hQ : (Q.map (fun p => p.discord_id)).Nodup)
    (hdisj : ∀ p ∈ Q, (∀ x ∈ A0.a, x.discord_id ≠ p.discord_id) ∧
      (∀ x ∈ A0.b, x.discord_id ≠ p.discord_id)) :
    (process status F (process status F Q A0).queue
      (process status F Q A0).assignments).matched = [] := by
  by_cases hg1 : status = "locked" ∨ status = "ended" ∨ status = "active"
  · rw [process_noop status F _ _ (Or.inl hg1)]
  by_cases hg2 : F.isEmpty ∨ Q = []
  · rw [process_noop status F Q A0 (Or.inr hg2)]
    show (process status F Q A0).matched = []
    rw [process_noop status F Q A0 (Or.inr hg2)]
  have hrun := process_run status F Q A0 hg1 hg2
  have hq1 : (process status F Q A0).queue =
      (executePersist Q A0 (findMatches F Q A0).matched).1 := by rw [hrun]
  have ha1 : (process status F Q A0).assignments =
      (executePersist Q A0 (findMatches F Q A0).matched).2 := by rw [hrun]
  rw [hq1, ha1]
  by_cases hg2b : F.isEmpty ∨ (executePersist Q A0 (findMatches F Q A0).matched).1 = []
  · rw [process_noop status F _ _ (Or.inr hg2b)]
  · have hrun2 := process_run status F
      (executePersist Q A0 (findMatches F Q A0).matched).1
      (executePersist Q A0 (findMatches F Q A0).matched).2 hg1 hg2b
    have hm2 : (process status F
        (executePersist Q A0 (findMatches F Q A0).matched).1
        (executePersist Q A0 (findMatches F Q A0).matched).2).matched =
        (findMatches F (executePersist Q A0 (findMatches F Q A0).matched).1
          (executePersist Q A0 (findMatches F Q A0).matched).2).matched := by
      rw [hrun2]
    rw [hm2]
    have hfold := foldPairs_inert F teamRoleOrder
      (initState (executePersist Q A0 (findMatches F Q A0).matched).2
        (executePersist Q A0 (findMatches F Q A0).matched).1)
      (fun tr htr => c6_pair_inert F Q A0 hQ hdisj tr htr)
    exact hfold.1

theorem c6_idempotent_when_disjoint_witness :
    ((([⟨1, "support", none, 0⟩] : List Player).map
        (fun p => p.discord_id)).Nodup ∧
      (∀ p ∈ ([⟨1, "support", none, 0⟩] : List Player),
        (∀ x ∈ (⟨[], []⟩ : Assignments).a, x.discord_id ≠ p.discord_id) ∧
        (∀ x ∈ (⟨[], []⟩ : Assignments).b, x.discord_id ≠ p.discord_id))) ∧
    (process "forming" ⟨some ⟨2, 2, 2⟩, some ⟨2, 2, 2⟩⟩
      (process "forming" ⟨some ⟨2, 2, 2⟩, some ⟨2, 2, 2⟩⟩
        [⟨1, "support", none, 0⟩] ⟨[], []⟩).queue
      (process "forming" ⟨some ⟨2, 2, 2⟩, some ⟨2, 2, 2⟩⟩
        [⟨1, "support", none, 0⟩] ⟨[], []⟩).assignments).matched = [] :=
  ⟨⟨by decide, by decide⟩,
   c6_idempotent_when_disjoint "forming" ⟨some ⟨2, 2, 2⟩, some ⟨2, 2, 2⟩⟩
     [⟨1, "support", none, 0⟩] ⟨[], []⟩ (by decide) (by decide)⟩

/-! ### C5 — FIFO fairness -/

theorem matchedIds_cons (m : MatchEntry) (ms : List MatchEntry) :
    matchedIds (m :: ms) = m.player.discord_id :: matchedIds ms := rfl

theorem filter_split_of_pos {P : Player → Bool} {σ1 σ2 : List Player} {p : Player}
    (hP : P p = true) :
    (σ1 ++ p :: σ2).filter P = σ1.filter P ++ p :: σ2.filter P := by
  rw [List.filter_append, List.filter_cons_of_pos hP]

theorem sorted_lt_split {σ : List Player} (hs : List.Sorted byJoined σ)
    {p q : Player} (hp : p ∈ σ) (hq : q ∈ σ)
    (hlt : p.joined_at < q.joined_at) :
    ∃ σ1 σ2, σ = σ1 ++ p :: σ2 ∧ q ∈ σ2 := by
  obtain ⟨σ1, σ2, rfl⟩ := List.append_of_mem hp
  refine ⟨σ1, σ2, rfl, ?_⟩
  rcases List.mem_append.mp hq with h | h
  · exfalso
    have hrel : byJoined q p := by
      have := (List.pairwise_append.mp hs).2.2
      exact this q h p (List.mem_cons_self p σ2)
    exact absurd hlt (by simpa [byJoined] using hrel)
  · rcases List.mem_cons.mp h with rfl | h2
    · exact absurd hlt (by omega)
    · exact h2

/-- In-loop FIFO: walking `l1 ++ p :: l2`, if `q ∈ l2` gets assigned by this
loop then `p` — which never conflicts — was assigned strictly earlier. -/
theorem assignLoop_fifo (t : Team) (r : String) (needed : Int) (p q : Player) :
    ∀ (l1 l2 : List Player) (k : Nat) (s : MatchState),
      q ∈ l2 →
      (((l1 ++ p :: l2).map (fun x => x.discord_id)).Nodup) →
      (∀ c, p.character = some c →
        c ∉ (s.team t).chars ∧ ∀ x ∈ l1, x.character ≠ some c) →
      q.discord_id ∉ matchedIds s.matched →
      q.discord_id ∈ matchedIds ((assignLoop t r needed (l1 ++ p :: l2) k s).matched) →
      ∃ D1 mp D2, (assignLoop t r needed (l1 ++ p :: l2) k s).matched =
        s.matched ++ D1 ++ mp :: D2 ∧ mp.player = p ∧
        q.discord_id ∈ matchedIds D2 := by
  intro l1
  induction l1 with
  | nil =>
    intro l2 k s hql2 hnd hgood hqnot hqin
    simp only [List.nil_append] at hnd hqin ⊢
    by_cases hk : (k : Int) < needed
    · have hcp : conflictChar p (s.team t).chars = none := by
        unfold conflictChar
        cases hpc : p.character with
        | none => rfl
        | some c =>
          dsimp only
          rw [if_neg ((hgood c hpc).1)]
      rw [assignLoop, if_pos hk, hcp] at hqin ⊢
      obtain ⟨Δ2, hΔ1, _, _⟩ := assignLoop_delta t r needed l2 (k + 1)
        (s.assignPlayer t r p)
      have hpid : q.discord_id ≠ p.discord_id := by
        simp only [List.map_cons, List.nodup_cons] at hnd
        intro he
        exact hnd.1 (he ▸ List.mem_map.mpr ⟨q, hql2, rfl⟩)
      refine ⟨[], { team := t, player := p, role := r }, Δ2, ?_, rfl, ?_⟩
      · rw [hΔ1, assignPlayer_matched]
        simp
      · rw [hΔ1, assignPlayer_matched] at hqin
        rw [matchedIds_append, matchedIds_append] at hqin
        rcases List.mem_append.mp hqin with h | h
        · rcases List.mem_append.mp h with h2 | h2
          · exact absurd h2 hqnot
          · exact absurd (List.mem_singleton.mp (by simpa [matchedIds] using h2))
              hpid
        · exact h
    · rw [assignLoop, if_neg hk] at hqin
      exact absurd hqin hqnot
  | cons x l1' ih =>
    intro l2 k s hql2 hnd hgood hqnot hqin
    have hndtail : (((l1' ++ p :: l2).map (fun y => y.discord_id)).Nodup) := by
      simp only [List.cons_append, List.map_cons, List.nodup_cons] at hnd
      exact hnd.2
    have hxq : x.discord_id ≠ q.discord_id := by
      simp only [List.cons_append, List.map_cons, List.nodup_cons] at hnd
      intro he
      exact hnd.1 (by
        rw [he]
        exact List.mem_map.mpr ⟨q, List.mem_append_right _
          (List.mem_cons_of_mem p hql2), rfl⟩)
    by_cases hk : (k : Int) < needed
    · cases hcx : conflictChar x (s.team t).chars with
      | some c =>
        rw [List.cons_append, assignLoop, if_pos hk, hcx] at hqin ⊢
        exact ih l2 k _ hql2 hndtail
          (fun c2 hpc => ⟨(hgood c2 hpc).1,
            fun y hy => (hgood c2 hpc).2 y (List.mem_cons_of_mem x hy)⟩)
          hqnot hqin
      | none =>
        rw [List.cons_append, assignLoop, if_pos hk, hcx] at hqin ⊢
        have hqnot1 : q.discord_id ∉ matchedIds (s.assignPlayer t r x).matched := by
          rw [assignPlayer_matched, matchedIds_append]
          intro hmem
          rcases List.mem_append.mp hmem with h | h
          · exact hqnot h
          · exact hxq (List.mem_singleton.mp (by simpa [matchedIds] using h)).symm
        have hgood1 : ∀ c, p.character = some c →
            c ∉ ((s.assignPlayer t r x).team t).chars ∧
            ∀ y ∈ l1', y.character ≠ some c := by
          intro c hpc
          refine ⟨?_, fun y hy => (hgood c hpc).2 y (List.mem_cons_of_mem x hy)⟩
          rw [assignPlayer_chars, if_pos rfl]
          intro hmem
          rcases List.mem_append.mp hmem with h | h
          · exact (hgood c hpc).1 h
          · cases hxc : x.character with
            | none =>
              rw [hxc] at h
              dsimp only at h
              exact absurd h (List.not_mem_nil c)
            | some cx =>
              rw [hxc] at h
              dsimp only at h
              have hceq : c = cx := List.mem_singleton.mp h
              exact (hgood c hpc).2 x (List.mem_cons_self x l1')
                (by rw [hxc, hceq])
        obtain ⟨D1, mp, D2, h1, h2, h3⟩ := ih l2 (k + 1) (s.assignPlayer t r x)
          hql2 hndtail hgood1 hqnot1 hqin
        refine ⟨{ team := t, player := x, role := r } :: D1, mp, D2, ?_, h2, h3⟩
        rw [h1, assignPlayer_matched]
        simp
    · rw [List.cons_append, assignLoop, if_neg hk] at hqin
      exact absurd hqin hqnot

theorem initState_matched (A0 : Assignments) (Q : List Player) :
    (initState A0 Q).matched = [] := rfl

theorem mem_charsOfRows_rowsOf {c : String} {ms : List MatchEntry} {t : Team}
    (h : c ∈ charsOfRows (rowsOf ms t)) :
    ∃ m ∈ ms, m.player.character = some c := by
  unfold charsOfRows rowsOf at h
  obtain ⟨row, hrow, hc⟩ := List.mem_filterMap.mp h
  obtain ⟨m, hm, hrow2⟩ := List.mem_map.mp hrow
  refine ⟨m, List.mem_of_mem_filter hm, ?_⟩
  rw [← hrow2] at hc
  exact hc

theorem matched_split_of_id_mem {ms : List MatchEntry} {i : Nat}
    (h : i ∈ matchedIds ms) :
    ∃ l1 m l2, ms = l1 ++ m :: l2 ∧ m.player.discord_id = i := by
  unfold matchedIds at h
  obtain ⟨m, hm, he⟩ := List.mem_map.mp h
  obtain ⟨l1, l2, rfl⟩ := List.append_of_mem hm
  exact ⟨l1, m, l2, rfl, he⟩

/-- Fold-level FIFO: walking the (team, role) pass order from any invariant
state, if the later same-role player `q` ends up matched then the earlier,
never-conflicting player `p` is matched strictly before `q`. -/
theorem fifo_fold (F : Formations) (A0 : Assignments) (σ : List Player)
    (hσnd : (σ.map (fun x => x.discord_id)).Nodup)
    (hsort : List.Sorted byJoined σ)
    (p q : Player) (hpσ : p ∈ σ) (hqσ : q ∈ σ)
    (hrole : p.role = q.role) (hlt : p.joined_at < q.joined_at)
    (hfresh : ∀ c, p.character = some c →
      (∀ t, c ∉ charsOfRows (A0.get t)) ∧
      ∀ x ∈ σ, x.discord_id ≠ p.discord_id → x.character ≠ some c) :
    ∀ (pairs : List (Team × String)) (s : MatchState),
      (∀ tr ∈ pairs, knownRole tr.2 = true) →
      PassInv A0 σ s →
      ((∃ L1 mp L2, s.matched = L1 ++ mp :: L2 ∧ mp.player = p) ∨
        p.discord_id ∉ matchedIds s.matched) →
      q.discord_id ∉ matchedIds s.matched →
      q.discord_id ∈ matchedIds ((pairs.foldl (processTeamRole F) s).matched) →
      ∃ L1 mp L2 mq L3,
        (pairs.foldl (processTeamRole F) s).matched =
          L1 ++ mp :: L2 ++ mq :: L3 ∧ mp.player = p ∧
        mq.player.discord_id = q.discord_id := by
  intro pairs
  induction pairs with
  | nil =>
    intro s _ _ _ hqnot hqin
    exact absurd hqin hqnot
  | cons tr rest ih =>
    intro s hk hinv hpstat hqnot hqin
    rw [List.foldl_cons] at hqin ⊢
    have htr : knownRole tr.2 = true := hk tr (List.mem_cons_self tr rest)
    have hinv' : PassInv A0 σ (processTeamRole F s tr) :=
      processTeamRole_inv F A0 σ hσnd s tr htr hinv
    obtain ⟨Δ, hΔ, _, hΔpair⟩ := processTeamRole_delta F s tr
    by_cases hqΔ : q.discord_id ∈ matchedIds Δ
    · -- q is matched during this (team, role) pair
      obtain ⟨Δa, mq, Δb, hqdec, hqid⟩ := matched_split_of_id_mem hqΔ
      have hmqmem : mq ∈ (processTeamRole F s tr).matched := by
        rw [hΔ, hqdec]; simp
      have hmq : mq.player = q :=
        players_id_inj hσnd (hinv'.matched_mem mq hmqmem) hqσ hqid
      have hqrole : q.role = tr.2 := by
        have h1 := (hinv'.matched_role mq hmqmem).1
        have h2 := (hΔpair mq (by rw [hqdec]; simp)).2
        rw [← hmq, h1, h2]
      obtain ⟨Δr, hΔr, _⟩ := foldPairs_delta F rest (processTeamRole F s tr)
      rcases hpstat with ⟨L1, mp, L2, hsplit, hmp⟩ | hpn
      · -- p was already matched before this pair
        refine ⟨L1, mp, L2 ++ Δa, mq, Δb ++ Δr, ?_, hmp, hqid⟩
        rw [hΔr, hΔ, hsplit, hqdec]
        simp [List.append_assoc]
      · -- p is still available: the in-loop lemma places it before q
        have hprole : p.role = tr.2 := hrole.trans hqrole
        obtain ⟨σ1, σ2, hσdec, hqσ2⟩ := sorted_lt_split hsort hpσ hqσ hlt
        obtain ⟨l1, l2, havail, hql2, hl1⟩ : ∃ l1 l2,
            s.remaining.filter (fun x => x.role = tr.2) = l1 ++ p :: l2 ∧
            q ∈ l2 ∧ ∀ x ∈ l1, x ∈ σ ∧ x.discord_id ≠ p.discord_id := by
          refine ⟨(σ1.filter
              (fun x => decide (x.discord_id ∉ matchedIds s.matched))).filter
                (fun x => decide (x.role = tr.2)),
            (σ2.filter
              (fun x => decide (x.discord_id ∉ matchedIds s.matched))).filter
                (fun x => decide (x.role = tr.2)), ?_, ?_, ?_⟩
          · rw [hinv.remaining_eq, hσdec,
              @filter_split_of_pos
                (fun x => decide (x.discord_id ∉ matchedIds s.matched))
                σ1 σ2 p (decide_eq_true hpn),
              @filter_split_of_pos (fun x => decide (x.role = tr.2)) _ _ p
                (decide_eq_true hprole)]
          · exact List.mem_filter.mpr
              ⟨List.mem_filter.mpr ⟨hqσ2, decide_eq_true hqnot⟩,
                decide_eq_true hqrole⟩
          · intro x hx
            have hx1 : x ∈ σ1 :=
              List.mem_of_mem_filter (List.mem_of_mem_filter hx)
            refine ⟨by rw [hσdec]; exact List.mem_append_left _ hx1, ?_⟩
            intro he
            have hpm : p.discord_id ∈ σ1.map (fun y => y.discord_id) := by
              rw [← he]
              exact List.mem_map_of_mem _ hx1
            have hnd2 := hσnd
            rw [hσdec, List.map_append, List.map_cons] at hnd2
            exact (nodup_split hnd2).1 hpm
        have hsub : List.Sublist (s.remaining.filter (fun x => x.role = tr.2)) σ := by
          rw [hinv.remaining_eq]
          exact List.Sublist.trans (List.filter_sublist _) (List.filter_sublist _)
        have hnd0 : (((l1 ++ p :: l2)).map (fun x => x.discord_id)).Nodup := by
          rw [← havail]
          exact List.Nodup.sublist (List.Sublist.map _ hsub) hσnd
        have hgood : ∀ c, p.character = some c →
            c ∉ ((s.team tr.1)).chars ∧ ∀ x ∈ l1, x.character ≠ some c := by
          intro c hpc
          constructor
          · rw [hinv.chars_eq tr.1]
            intro hmem
            rcases List.mem_append.mp hmem with h | h
            · exact (hfresh c hpc).1 tr.1 h
            · obtain ⟨m, hm, hmc⟩ := mem_charsOfRows_rowsOf h
              have hmne : m.player.discord_id ≠ p.discord_id := by
                intro he
                apply hpn
                rw [← he]
                exact List.mem_map_of_mem _ hm
              exact (hfresh c hpc).2 m.player (hinv.matched_mem m hm) hmne hmc
          · intro x hx
            exact (hfresh c hpc).2 x (hl1 x hx).1 (hl1 x hx).2
        have hPTR : processTeamRole F s tr =
            assignLoop tr.1 tr.2
              (((F.get tr.1).get tr.2 : Int) - ((s.team tr.1).counts.get tr.2 : Int))
              (l1 ++ p :: l2) 0 s := by
          unfold processTeamRole
          rw [havail]
        have hqin2 : q.discord_id ∈ matchedIds ((assignLoop tr.1 tr.2
            (((F.get tr.1).get tr.2 : Int) - ((s.team tr.1).counts.get tr.2 : Int))
            (l1 ++ p :: l2) 0 s).matched) := by
          rw [← hPTR, hΔ, matchedIds_append]
          exact List.mem_append_right _ hqΔ
        obtain ⟨D1, mp, D2, hA1, hA2, hA3⟩ :=
          assignLoop_fifo tr.1 tr.2
            (((F.get tr.1).get tr.2 : Int) - ((s.team tr.1).counts.get tr.2 : Int))
            p q l1 l2 0 s hql2 hnd0 hgood hqnot hqin2
        have hA1' : (processTeamRole F s tr).matched =
            s.matched ++ D1 ++ mp :: D2 := by
          rw [hPTR]; exact hA1
        obtain ⟨D2a, mq2, D2b, hD2, hqid2⟩ := matched_split_of_id_mem hA3
        refine ⟨s.matched ++ D1, mp, D2a, mq2, D2b ++ Δr, ?_, hA2, hqid2⟩
        rw [hΔr, hA1', hD2]
        simp [List.append_assoc]
    · -- q untouched by this pair: recurse with an updated status for p
      have hqnot' : q.discord_id ∉ matchedIds (processTeamRole F s tr).matched := by
        rw [hΔ, matchedIds_append]
        intro hmem
        rcases List.mem_append.mp hmem with h | h
        · exact hqnot h
        · exact hqΔ h
      have hpstat' : (∃ L1 mp L2, (processTeamRole F s tr).matched =
            L1 ++ mp :: L2 ∧ mp.player = p) ∨
          p.discord_id ∉ matchedIds (processTeamRole F s tr).matched := by
        rcases hpstat with ⟨L1, mp, L2, hsplit, hmp⟩ | hpn
        · exact Or.inl ⟨L1, mp, L2 ++ Δ, by rw [hΔ, hsplit]; simp, hmp⟩
        · by_cases hpΔ : p.discord_id ∈ matchedIds Δ
          · obtain ⟨Δa, mp, Δb, hdec, hid⟩ := matched_split_of_id_mem hpΔ
            have hmpmem : mp ∈ (processTeamRole F s tr).matched := by
              rw [hΔ, hdec]; simp
            have hmp : mp.player = p :=
              players_id_inj hσnd (hinv'.matched_mem mp hmpmem) hpσ hid
            exact Or.inl ⟨s.matched ++ Δa, mp, Δb, by rw [hΔ, hdec]; simp, hmp⟩
          · refine Or.inr ?_
            rw [hΔ, matchedIds_append]
            intro hmem
            rcases List.mem_append.mp hmem with h | h
            · exact hpn h
            · exact hpΔ h
      exact ih (processTeamRole F s tr)
        (fun x hx => hk x (List.mem_cons_of_mem tr hx)) hinv' hpstat' hqnot' hqin

/-- C5: FIFO fairness of `find_matches`. For two queued players of the same
role where the earlier player's character (if any) conflicts with nothing —
neither with an existing assignment row of either team nor with any other
queued player's character — if the later player is matched by the pass then
the earlier player is matched strictly before them in the pass's match list:
the queue is walked in ascending `joined_at` order per role and enqueue order
is the ordering key. -/
theorem c5_fifo_fairness (F : Formations) (Q : List Player) (A0 : Assignments)
    (hQ : (Q.map (fun x => x.discord_id)).Nodup)
    (p q : Player) (hp : p ∈ Q) (hq : q ∈ Q)
    (hrole : p.role = q.role) (hlt : p.joined_at < q.joined_at)
    (hfresh : ∀ c, p.character = some c →
      (∀ t, c ∉ charsOfRows (A0.get t)) ∧
      ∀ x ∈ Q, x.discord_id ≠ p.discord_id → x.character ≠ some c)
    (hqmatched : q.discord_id ∈ matchedIds (findMatches F Q A0).matched) :
    ∃ L1 mp L2 mq L3,
      (findMatches F Q A0).matched = L1 ++ mp :: L2 ++ mq :: L3 ∧
      mp.player = p ∧ mq.player = q := by
  have hσnd := sortQueue_ids_nodup hQ
  have hsort : List.Sorted byJoined (sortQueue Q) :=
    List.sorted_insertionSort byJoined Q
  have hpσ : p ∈ sortQueue Q := mem_sortQueue.mpr hp
  have hqσ : q ∈ sortQueue Q := mem_sortQueue.mpr hq
  have hfreshσ : ∀ c, p.character = some c →
      (∀ t, c ∉ charsOfRows (A0.get t)) ∧
      ∀ x ∈ sortQueue Q, x.discord_id ≠ p.discord_id → x.character ≠ some c :=
    fun c hpc => ⟨(hfresh c hpc).1,
      fun x hx => (hfresh c hpc).2 x (mem_sortQueue.mp hx)⟩
  have hqm : q.discord_id ∈ matchedIds ((teamRoleOrder.foldl (processTeamRole F)
      (initState A0 Q)).matched) := hqmatched
  obtain ⟨L1, mp, L2, mq, L3, hdec, hmp, hmqid⟩ :=
    fifo_fold F A0 (sortQueue Q) hσnd hsort p q hpσ hqσ hrole hlt hfreshσ
      teamRoleOrder (initState A0 Q) (by decide) (initState_inv A0 Q)
      (Or.inr (by rw [initState_matched]; exact List.not_mem_nil _))
      (by rw [initState_matched]; exact List.not_mem_nil _) hqm
  have hdec' : (findMatches F Q A0).matched = L1 ++ mp :: L2 ++ mq :: L3 := hdec
  have hmqσ : mq.player ∈ sortQueue Q :=
    (findMatches_inv F Q A0 hQ).matched_mem mq (by rw [hdec']; simp)
  exact ⟨L1, mp, L2, mq, L3, hdec', hmp, players_id_inj hσnd hmqσ hqσ hmqid⟩

/-- Witness for C5 at a concrete state: two support players joined at times 1
and 2, one support slot on each team; the pass matches player 1 before
player 2. -/
theorem c5_fifo_fairness_witness :
    ∃ L1 mp L2 mq L3,
      (findMatches ⟨some ⟨1, 0, 0⟩, some ⟨1, 0, 0⟩⟩
        [⟨1, "support", none, 1⟩, ⟨2, "support", none, 2⟩] ⟨[], []⟩).matched =
        L1 ++ mp :: L2 ++ mq :: L3 ∧
      mp.player = ⟨1, "support", none, 1⟩ ∧
      mq.player = ⟨2, "support", none, 2⟩ :=
  c5_fifo_fairness ⟨some ⟨1, 0, 0⟩, some ⟨1, 0, 0⟩⟩
    [⟨1, "support", none, 1⟩, ⟨2, "support", none, 2⟩] ⟨[], []⟩ (by decide)
    ⟨1, "support", none, 1⟩ ⟨2, "support", none, 2⟩
    (List.Mem.head _) (List.Mem.tail _ (List.Mem.head _))
    rfl (by decide)
    (fun c hc => absurd hc (by simp))
    (by decide)

end LordFarming
